import Mathlib

/-!
# LazyPool: a shallow embedding of `lazypool.c`

The pool hands out fixed-size slots drawn from chunks ("subpools").  The
embedding follows `source/lazypool.c` function by function.

Conventions of the embedding:

* addresses and `unsigned long` values are natural numbers below `2 ^ 64`;
  every arithmetic step of the source is reduced modulo `2 ^ 64`, and the two
  `unsigned` locals of `lazypool_allocate` modulo `2 ^ 32` (LP64 data model);
* `NULL` is the address `0`;
* `sizeof(struct _lazyslot_)` is 16 (two 8-byte pointers);
* the metadata array that lives at the start of a chunk's data block is kept as
  the list `cells`; entry `i` of the list is the `struct _lazyslot_` stored at
  address `slots + 16 * i`;
* a chain of chunks (`pool->free_subpools`, `pool->used_subpools`) is the list of
  chunks met from the head pointer by following `next`; a chunk's `next` field
  is therefore its position in the list, `NULL` is the empty list;
* `malloc` is an input: the functions that may create a chunk receive
  `mem : Option Nat`, the address of the data block (`none`: an allocation on
  the path failed);
* a failed `assert`, a dereference of `NULL`, an access outside the metadata
  array and a write to a freed chunk end the run with a `Fault`.
-/

namespace Lazy

/-- Number of values of an `unsigned long`. -/
abbrev ULONG_MOD : Nat := 2 ^ 64

/-- Number of values of an `unsigned` (int). -/
abbrev UINT_MOD : Nat := 2 ^ 32

/-- The value of `sizeof(struct _lazyslot_)`: two pointers. -/
abbrev SIZEOF_SLOT : Nat := 16

/-- Ways in which a run of the C code stops without returning. -/
inductive Fault where
  | assertion
  | null_deref
  | bad_access
  | use_after_free
deriving DecidableEq, Repr

deriving instance DecidableEq for Except

/-- Modelled from the spec: the result codes of `lazypool_codes.h`, a header that
is included by `lazypool.c` and is not among the sources.  `lazypool.h` documents
`LAZYPOOL_OK` as 0 and every error as a value greater than 0; the source only
tests codes for being zero and returns them, so distinct constructors suffice. -/
inductive Code where
  | LAZYPOOL_OK
  | LAZYPOOL_ERR_ALLOC_MEM
  | LAZYPOOL_ERR_FULL
  | LAZYPOOL_ERR_ILLEGAL_PTR
deriving DecidableEq, Repr

/-- The C truth value of a result code: `if (err)`. -/
def Code.is_err (c : Code) : Bool :=
  match c with
  | .LAZYPOOL_OK => false
  | _ => true

/-- The record `struct _lazyslot_`: one metadata entry. -/
structure LazySlot where
  next : Nat
  slot : Nat
deriving DecidableEq, Repr

/-- The record `struct _lazysubpool_`, together with the contents of the metadata
array at `slots`.  The field `next` is the chunk's position in its chain. -/
structure LazySubpool where
  slot_size : Nat
  slot_count : Nat
  used_count : Nat
  slots : Nat
  used_slots : Nat
  free_slots : Nat
  cells : List LazySlot
deriving DecidableEq, Repr

/-- The record `struct _lazypool_`; the two head pointers are the two chains. -/
structure LazyPool where
  slot_count : Nat
  used_count : Nat
  subpool_count : Nat
  used_subpools : List LazySubpool
  free_subpools : List LazySubpool
deriving DecidableEq, Repr

/-- Subtraction of `unsigned long` values. -/
def usub (a b : Nat) : Nat := (a % ULONG_MOD + ULONG_MOD - b % ULONG_MOD) % ULONG_MOD

/-- Addition of `unsigned long` values, also of an address and a byte offset. -/
def uadd (a b : Nat) : Nat := (a + b) % ULONG_MOD

/-- Multiplication of `unsigned long` values. -/
def umul (a b : Nat) : Nat := (a * b) % ULONG_MOD

/-- The difference `(struct _lazyslot_ *)p - (struct _lazyslot_ *)q` as the
compiled code computes it: the byte difference as a signed 64-bit value, shifted
right arithmetically by 4, read back as `unsigned long`. -/
def ptr_diff (p q : Nat) : Nat :=
  let d := usub p q
  if d < 2 ^ 63 then d / SIZEOF_SLOT else d / SIZEOF_SLOT + (2 ^ 64 - 2 ^ 60)

/-- The metadata entry an address points to: its index in `cells`. -/
def cell_index (subpool : LazySubpool) (p : Nat) : Except Fault Nat :=
  if p = 0 then .error .null_deref
  else if subpool.slots ≤ p ∧ (p - subpool.slots) % SIZEOF_SLOT = 0
      ∧ (p - subpool.slots) / SIZEOF_SLOT < subpool.cells.length then
    .ok ((p - subpool.slots) / SIZEOF_SLOT)
  else .error .bad_access

/-- Read of the metadata entry at address `p`. -/
def load (subpool : LazySubpool) (p : Nat) : Except Fault LazySlot := do
  let i ← cell_index subpool p
  match subpool.cells[i]? with
  | some cell => .ok cell
  | none => .error .bad_access

/-- Write of the metadata entry at address `p`. -/
def store (subpool : LazySubpool) (p : Nat) (cell : LazySlot) : Except Fault LazySubpool := do
  let i ← cell_index subpool p
  .ok { subpool with cells := subpool.cells.set i cell }

/-- The range test `_is_valid_ptr_`, lines 14-23.  Its `assert(ptr)` holds at every
call: the callers are reached only after the null test of `lazypool_deallocate`. -/
def _is_valid_ptr_ (ptr : Nat) (pool : LazySubpool) : Bool :=
  let min_ptr := uadd pool.slots (umul SIZEOF_SLOT pool.slot_count)
  let max_ptr := uadd min_ptr (umul pool.slot_size (usub pool.slot_count 1))
  decide (min_ptr ≤ ptr ∧ ptr ≤ max_ptr)

/-- The loop of `_init_slots_`, lines 32-45: `k` iterations remain, the next one
has loop index `i` and writes the entry `actual = data + 16 * i`. -/
def _init_slots_loop (data slot_size slot_count : Nat) : Nat → Nat → List LazySlot
  | 0, _ => []
  | k + 1, i =>
    { next := if i + 1 < slot_count then uadd data (umul SIZEOF_SLOT (i + 1)) else 0,
      slot := uadd data (uadd (umul SIZEOF_SLOT slot_count) (umul slot_size i)) }
      :: _init_slots_loop data slot_size slot_count k (i + 1)

/-- The function `_init_slots_`, lines 25-46. -/
def _init_slots_ (subpool : LazySubpool) : LazySubpool :=
  { subpool with
    cells := _init_slots_loop subpool.slots subpool.slot_size subpool.slot_count
      subpool.slot_count 0 }

/-- The function `_create_subpool_`, lines 48-81.  `mem` is the data block that
`malloc` returns for `16 * slot_count + slot_size * slot_count` bytes; `none`
stands for a failure of either `malloc`, and so does the null address, which is
what the test `!data` of line 62 sees. -/
def _create_subpool_ (slot_size slot_count : Nat) (mem : Option Nat) : Option LazySubpool :=
  match mem with
  | none => none
  | some data =>
    if data = 0 then none
    else
      some (_init_slots_
        { slot_size := slot_size, slot_count := slot_count, used_count := 0, slots := data,
          used_slots := 0, free_slots := data, cells := [] })

/-- The function `_create_pool_`, lines 103-121, when its `malloc` succeeds. -/
def _create_pool_ : LazyPool :=
  { slot_count := 0, used_count := 0, subpool_count := 0, used_subpools := [],
    free_subpools := [] }

/-- The function `_add_subpool_`, lines 140-166.  Returns the code, the chunk
stored through `out_subpool` (the previous head of the available chain) and the
pool.  `looser->next = NULL` cuts the chunks behind the previous head off; the
new chunk, whose `next` is `NULL`, becomes the whole available chain. -/
def _add_subpool_ (slot_size slot_count : Nat) (pool : LazyPool) (mem : Option Nat) :
    Code × Option LazySubpool × LazyPool :=
  match _create_subpool_ slot_size slot_count mem with
  | none => (.LAZYPOOL_ERR_ALLOC_MEM, none, pool)
  | some subpool =>
    let looser := pool.free_subpools.head?
    (.LAZYPOOL_OK, looser,
      { pool with
        slot_count := uadd pool.slot_count slot_count,
        subpool_count := uadd pool.subpool_count 1,
        free_subpools := [subpool] })

/-- The function `_get_slot_`, lines 204-210: the address of metadata entry `index`. -/
def _get_slot_ (index : Nat) (subpool : LazySubpool) : Except Fault Nat :=
  if index < subpool.slot_count then
    .ok (uadd subpool.slots (umul SIZEOF_SLOT index))
  else .error .assertion

/-- The function `_get_index_from_ptr_`, lines 212-220. -/
def _get_index_from_ptr_ (ptr : Nat) (subpool : LazySubpool) : Except Fault Nat := do
  let last ← _get_slot_ (usub subpool.slot_count 1) subpool
  .ok (ptr_diff ptr last)

/-- The function `_allocate_from_subpool_`, lines 222-244.  Returns the address,
the code given to `_set_err_` and the chunk. -/
def _allocate_from_subpool_ (subpool : LazySubpool) : Except Fault (Nat × Code × LazySubpool) :=
  if subpool.used_count = subpool.slot_count then
    .ok (0, .LAZYPOOL_ERR_FULL, subpool)
  else do
    let winner := subpool.free_slots
    let cell ← load subpool winner
    let slot := cell.slot
    let subpool1 := { subpool with free_slots := cell.next }
    let subpool2 ← store subpool1 winner { next := 0, slot := 0 }
    .ok (slot, .LAZYPOOL_OK, { subpool2 with used_count := uadd subpool2.used_count 1 })

/-- The function `_deallocate_from_subpool_`, lines 246-266, on the address `*ptr`. -/
def _deallocate_from_subpool_ (ptr : Nat) (subpool : LazySubpool) :
    Except Fault (Code × LazySubpool) :=
  if !_is_valid_ptr_ ptr subpool then
    .ok (.LAZYPOOL_ERR_ILLEGAL_PTR, subpool)
  else do
    let index ← _get_index_from_ptr_ ptr subpool
    let winner ← _get_slot_ index subpool
    let subpool1 ← store subpool winner { next := subpool.free_slots, slot := ptr }
    .ok (.LAZYPOOL_OK,
      { subpool1 with used_count := usub subpool1.used_count 1, free_slots := winner })

/-- The conversion of an `unsigned long` to `int` and back, as in
`int count = pool->used_count; ... pool->used_count -= count`. -/
def int_round_trip (x : Nat) : Nat :=
  let low := x % UINT_MOD
  if low < 2 ^ 31 then low else low + (ULONG_MOD - UINT_MOD)

/-- The function `_deallocate_all_from_subpool_`, lines 268-281: the returned count,
already converted for the subtraction at the call site, and the chunk. -/
def _deallocate_all_from_subpool_ (pool : LazySubpool) : Nat × LazySubpool :=
  (int_round_trip pool.used_count,
    _init_slots_ { pool with used_count := 0, used_slots := 0, free_slots := pool.slots })

/-- The loop of `_deallocate_from_used_subpools`, lines 291-323: `before` holds the
chunks already passed, the last argument is the chain from `actual` on. -/
def _deallocate_from_used_loop (ptr : Nat) (pool : LazyPool) :
    List LazySubpool → List LazySubpool → Except Fault (Code × LazyPool)
  | _, [] => .ok (.LAZYPOOL_ERR_ILLEGAL_PTR, pool)
  | before, actual :: next =>
    if _is_valid_ptr_ ptr actual then do
      let (err, actual1) ← _deallocate_from_subpool_ ptr actual
      if err.is_err then
        .ok (err, { pool with used_subpools := before ++ actual1 :: next })
      else
        .ok (.LAZYPOOL_OK,
          { pool with
            used_count := usub pool.used_count 1,
            free_subpools := actual1 :: pool.free_subpools,
            used_subpools := before ++ next })
    else _deallocate_from_used_loop ptr pool (before ++ [actual]) next

/-- The function `_deallocate_from_used_subpools`, lines 283-326. -/
def _deallocate_from_used_subpools (ptr : Nat) (pool : LazyPool) : Except Fault (Code × LazyPool) :=
  _deallocate_from_used_loop ptr pool [] pool.used_subpools

/-- The loop of `_deallocate_from_free_subpools`, lines 336-356. -/
def _deallocate_from_free_loop (ptr : Nat) (pool : LazyPool) :
    List LazySubpool → List LazySubpool → Except Fault (Code × LazyPool)
  | _, [] => .ok (.LAZYPOOL_ERR_ILLEGAL_PTR, pool)
  | before, actual :: next =>
    if _is_valid_ptr_ ptr actual then do
      let (err, actual1) ← _deallocate_from_subpool_ ptr actual
      if err.is_err then
        .ok (err, { pool with free_subpools := before ++ actual1 :: next })
      else
        .ok (.LAZYPOOL_OK,
          { pool with
            used_count := usub pool.used_count 1,
            free_subpools := before ++ actual1 :: next })
    else _deallocate_from_free_loop ptr pool (before ++ [actual]) next

/-- The function `_deallocate_from_free_subpools`, lines 328-359. -/
def _deallocate_from_free_subpools (ptr : Nat) (pool : LazyPool) : Except Fault (Code × LazyPool) :=
  _deallocate_from_free_loop ptr pool [] pool.free_subpools

/-- The slot size read through `pool->free_subpools->slot_size`. -/
def head_slot_size (pool : LazyPool) : Except Fault Nat :=
  match pool.free_subpools with
  | [] => .error .null_deref
  | head :: _ => .ok head.slot_size

/-- The function `lazypool_used_bytes`, lines 361-365. -/
def lazypool_used_bytes (pool : LazyPool) : Except Fault Nat := do
  let slot_size ← head_slot_size pool
  .ok (umul pool.used_count slot_size)

/-- The function `lazypool_available_bytes`, lines 367-371. -/
def lazypool_available_bytes (pool : LazyPool) : Except Fault Nat := do
  let slot_size ← head_slot_size pool
  .ok (umul (usub pool.slot_count pool.used_count) slot_size)

/-- The function `lazypool_total_bytes`, lines 373-377. -/
def lazypool_total_bytes (pool : LazyPool) : Except Fault Nat := do
  let slot_size ← head_slot_size pool
  .ok (umul pool.slot_count slot_size)

/-- The loop of `lazypool_free_unused`, lines 390-416.  `before` is `none` while the
C variable is `NULL`, else it tells whether the chunk it points to was destroyed.
The triple holds `freeded_count`, `pool->subpool_count` and `pool->slot_count`;
the result adds the chain that is left.  Unlinking behind a destroyed chunk is
the write `before->next = next` into freed memory. -/
def free_unused_loop : Option Bool → List LazySubpool → Nat × Nat × Nat →
    Except Fault (Nat × Nat × Nat × List LazySubpool)
  | _, [], (freeded_count, subpool_count, slot_count) =>
    .ok (freeded_count, subpool_count, slot_count, [])
  | before, actual :: next, (freeded_count, subpool_count, slot_count) =>
    if actual.used_count = 0 then
      if before = some true then .error .use_after_free
      else
        free_unused_loop (some true) next
          (uadd freeded_count actual.slot_count, usub subpool_count 1,
            usub slot_count actual.slot_count)
    else do
      let (f, c, s, chain) ← free_unused_loop (some false) next
        (freeded_count, subpool_count, slot_count)
      .ok (f, c, s, actual :: chain)

/-- The function `lazypool_free_unused`, lines 379-419. -/
def lazypool_free_unused (pool : LazyPool) : Except Fault (Nat × LazyPool) :=
  if pool.subpool_count = 1 then .ok (0, pool)
  else do
    let (freeded_count, subpool_count, slot_count, chain) ←
      free_unused_loop none pool.free_subpools (0, pool.subpool_count, pool.slot_count)
    .ok (freeded_count,
      { pool with subpool_count := subpool_count, slot_count := slot_count,
                  free_subpools := chain })

/-- The function `lazypool_create`, lines 421-439. -/
def lazypool_create (slot_size slot_count : Nat) (mem : Option Nat) : Code × Option LazyPool :=
  match _add_subpool_ slot_size slot_count _create_pool_ mem with
  | (.LAZYPOOL_OK, _, pool) => (.LAZYPOOL_OK, some pool)
  | _ => (.LAZYPOOL_ERR_ALLOC_MEM, none)

/-- The function `lazypool_allocate`, lines 441-479.  Returns the address (0 is
`NULL`), the code written through `err`, and the pool. -/
def lazypool_allocate (pool : LazyPool) (mem : Option Nat) :
    Except Fault (Nat × Code × LazyPool) := do
  let grown : Option LazyPool ←
    if pool.used_count = pool.slot_count then
      match pool.free_subpools with
      | [] => .error .null_deref
      | head :: _ =>
        let slot_size := head.slot_size % UINT_MOD
        let slot_count := head.slot_count % UINT_MOD
        match _add_subpool_ slot_size slot_count pool mem with
        | (.LAZYPOOL_OK, some filled_subpool, pool1) =>
          .ok (some { pool1 with used_subpools := filled_subpool :: pool.used_subpools })
        | (.LAZYPOOL_OK, none, _) => .error .assertion
        | _ => .ok none
    else .ok (some pool)
  match grown with
  | none => .ok (0, .LAZYPOOL_ERR_ALLOC_MEM, pool)
  | some pool1 =>
    match pool1.free_subpools with
    | [] => .error .assertion
    | subpool :: rest =>
      let (ptr, err, subpool1) ← _allocate_from_subpool_ subpool
      if ptr = 0 then .error .assertion
      else
        .ok (ptr, err,
          { pool1 with free_subpools := subpool1 :: rest,
                       used_count := uadd pool1.used_count 1 })

/-- The function `lazypool_deallocate`, lines 481-511.  `ptr` is `none` for a null
`ptr` and `some v` when `*ptr` is `v`; the result carries the value of `*ptr`
after the call. -/
def lazypool_deallocate (ptr : Option Nat) (pool : LazyPool) :
    Except Fault (Code × Option Nat × LazyPool) :=
  match ptr with
  | none => .ok (.LAZYPOOL_OK, none, pool)
  | some v =>
    if v = 0 then .ok (.LAZYPOOL_OK, some v, pool)
    else do
      let (err, pool1) ← _deallocate_from_used_subpools v pool
      if err.is_err then
        let (err2, pool2) ← _deallocate_from_free_subpools v pool1
        .ok (err2, some v, pool2)
      else .ok (.LAZYPOOL_OK, some v, pool1)

/-- The loop of `lazypool_deallocate_all`, lines 520-534, once `actual_free` is
`NULL`: only the second branch of the body runs. -/
def deallocate_all_rest : Nat → List LazySubpool → Nat × List LazySubpool
  | used_count, [] => (used_count, [])
  | used_count, actual_used :: next_used =>
    let (k, sub) := _deallocate_all_from_subpool_ actual_used
    let (u, us) := deallocate_all_rest (usub used_count k) next_used
    (u, sub :: us)

/-- The loop of `lazypool_deallocate_all`, lines 520-534, on `pool->used_count`
and the chains from `actual_free` and `actual_used` on. -/
def deallocate_all_loop : Nat → List LazySubpool → List LazySubpool →
    Nat × List LazySubpool × List LazySubpool
  | used_count, [], chain =>
    let (u, us) := deallocate_all_rest used_count chain
    (u, [], us)
  | used_count, actual_free :: next_free, [] =>
    let (k, sub) := _deallocate_all_from_subpool_ actual_free
    let (u, fs, us) := deallocate_all_loop (usub used_count k) next_free []
    (u, sub :: fs, us)
  | used_count, actual_free :: next_free, actual_used :: next_used =>
    let (k1, sub1) := _deallocate_all_from_subpool_ actual_free
    let (k2, sub2) := _deallocate_all_from_subpool_ actual_used
    let (u, fs, us) := deallocate_all_loop (usub (usub used_count k1) k2) next_free next_used
    (u, sub1 :: fs, sub2 :: us)

/-- The function `lazypool_deallocate_all`, lines 513-542.  With an empty available
chain `last_free` is `NULL`, nothing is linked and the exhausted chain is dropped. -/
def lazypool_deallocate_all (pool : LazyPool) : LazyPool :=
  let (used_count, fs, us) :=
    deallocate_all_loop pool.used_count pool.free_subpools pool.used_subpools
  { pool with
    used_count := used_count,
    free_subpools := if fs ≠ [] ∧ us ≠ [] then fs ++ us else fs,
    used_subpools := [] }

/-! ## Calls in sequence -/

/-- One call of the public interface, as a caller issues it.  `deallocate p` is
the call `lazypool_deallocate(&q, pool)` with `q` holding the address `p`. -/
inductive Op where
  | allocate (mem : Option Nat)
  | deallocate (p : Nat)
  | free_unused
  | deallocate_all
deriving DecidableEq, Repr

/-- What a call hands back to the caller. -/
inductive Obs where
  | allocated (ptr : Nat) (err : Code)
  | deallocated (code : Code) (ref : Option Nat)
  | freed (count : Nat)
  | reset
deriving DecidableEq, Repr

/-- Run of one call on a pool. -/
def call (pool : LazyPool) : Op → Except Fault (Obs × LazyPool)
  | .allocate mem => do
    let (ptr, err, pool1) ← lazypool_allocate pool mem
    .ok (.allocated ptr err, pool1)
  | .deallocate p => do
    let (code, ref, pool1) ← lazypool_deallocate (some p) pool
    .ok (.deallocated code ref, pool1)
  | .free_unused => do
    let (count, pool1) ← lazypool_free_unused pool
    .ok (.freed count, pool1)
  | .deallocate_all => .ok (.reset, lazypool_deallocate_all pool)

/-- Run of a sequence of calls, collecting what each one returned. -/
def run (pool : LazyPool) : List Op → Except Fault (List Obs × LazyPool)
  | [] => .ok ([], pool)
  | op :: ops => do
    let (o, pool1) ← call pool op
    let (os, pool2) ← run pool1 ops
    .ok (o :: os, pool2)

/-- The call `lazypool_create(slot_size, slot_count, &pool)` with a data block at
`data`, followed by a sequence of calls on the pool. -/
def session (slot_size slot_count data : Nat) (ops : List Op) :
    Except Fault (List Obs × LazyPool) :=
  match lazypool_create slot_size slot_count (some data) with
  | (_, some pool) => run pool ops
  | (_, none) => .ok ([], _create_pool_)

/-! ## Reachable states with the caller's bookkeeping -/

/-- Geometry of a chunk at its creation: address of the data block and the two
parameters given to `_create_subpool_`. -/
structure Block where
  base : Nat
  slot_size : Nat
  slot_count : Nat
deriving DecidableEq, Repr

/-- Size of the data block of a chunk: metadata array plus payload region. -/
def Block.bytes (b : Block) : Nat := SIZEOF_SLOT * b.slot_count + b.slot_size * b.slot_count

/-- The chunk that the call `lazypool_allocate(pool, ..)` creates when `malloc`
answers `mem`: none unless the pool is full and `malloc` returns a non-null
block. -/
def grown (pool : LazyPool) (mem : Option Nat) : List Block :=
  if pool.used_count = pool.slot_count then
    match pool.free_subpools, mem with
    | head :: _, some data =>
      if data = 0 then []
      else
        [{ base := data, slot_size := head.slot_size % UINT_MOD,
           slot_count := head.slot_count % UINT_MOD }]
    | _, _ => []
  else []

/-- A pool together with what its caller knows: the addresses handed out and not
yet given back (`live`) and the chunks created so far (`made`). -/
structure Sys where
  pool : LazyPool
  live : List Nat
  made : List Block

/-- States reached from `lazypool_create(slot_size, slot_count, ..)` by calls of
`lazypool_allocate` and by calls of `lazypool_deallocate` on outstanding
addresses, every call returning. -/
inductive Reach (slot_size slot_count : Nat) : Sys → Prop
  | create (data : Nat) (pool : LazyPool) :
    lazypool_create slot_size slot_count (some data) = (.LAZYPOOL_OK, some pool) →
    Reach slot_size slot_count
      { pool := pool, live := [],
        made := [{ base := data, slot_size := slot_size, slot_count := slot_count }] }
  | allocate (σ : Sys) (mem : Option Nat) (ptr : Nat) (err : Code) (pool1 : LazyPool) :
    Reach slot_size slot_count σ →
    lazypool_allocate σ.pool mem = .ok (ptr, err, pool1) →
    Reach slot_size slot_count
      { pool := pool1, live := if ptr = 0 then σ.live else ptr :: σ.live,
        made := grown σ.pool mem ++ σ.made }
  | deallocate (σ : Sys) (p : Nat) (code : Code) (ref : Option Nat) (pool1 : LazyPool) :
    Reach slot_size slot_count σ →
    p ∈ σ.live →
    lazypool_deallocate (some p) σ.pool = .ok (code, ref, pool1) →
    Reach slot_size slot_count
      { pool := pool1, live := if code = .LAZYPOOL_OK then σ.live.erase p else σ.live,
        made := σ.made }

/-- The data blocks of the chunks lie in the 64-bit address space, hold slots of at
least one byte and are pairwise disjoint. -/
def BlocksOk (made : List Block) : Prop :=
  (∀ b ∈ made, b.base + b.bytes ≤ ULONG_MOD ∧ 1 ≤ b.slot_size) ∧
  made.Pairwise (fun a b => a.base + a.bytes ≤ b.base ∨ b.base + b.bytes ≤ a.base)

/-- Number of slots of all chunks created so far. -/
def slots_made (made : List Block) : Nat := (made.map (fun b => b.slot_count)).sum

/-! ## The payload range of a chunk -/

/-- First payload address of a chunk as the code computes it (`min_ptr`, line 19):
base plus the size of the metadata array, in `unsigned long` arithmetic. -/
def payload_start (c : LazySubpool) : Nat := uadd c.slots (umul SIZEOF_SLOT c.slot_count)

/-- Payload address of the last slot as the code computes it (`max_ptr`, line 20):
`payload_start + slot_size * (slot_count - 1)` in `unsigned long` arithmetic. -/
def payload_last (c : LazySubpool) : Nat :=
  uadd (payload_start c) (umul c.slot_size (usub c.slot_count 1))

/-- Ownership of an address by a chunk: the inclusive range test of the code, with
both bounds reduced modulo `2 ^ 64`. -/
def owns (q : Nat) (c : LazySubpool) : Prop := payload_start c ≤ q ∧ q ≤ payload_last c

instance (q : Nat) (c : LazySubpool) : Decidable (owns q c) := by
  unfold owns; exact inferInstance

/-- The payload range in the words of the specification: `q` lies in the inclusive
range `[payload_start, payload_start + slot_size * (slot_count - 1)]` with
`payload_start = base + sizeof(slot metadata) * slot_count`, the bounds being
integers (nothing is reduced modulo `2 ^ 64`, and `slot_count - 1` is `-1` for a
chunk without slots). -/
def in_payload_range (q : Nat) (c : LazySubpool) : Prop :=
  (c.slots : Int) + SIZEOF_SLOT * c.slot_count ≤ q ∧
  (q : Int) ≤ (c.slots : Int) + SIZEOF_SLOT * c.slot_count
                + c.slot_size * ((c.slot_count : Int) - 1)

instance (q : Nat) (c : LazySubpool) : Decidable (in_payload_range q c) := by
  unfold in_payload_range; exact inferInstance

/-- Addresses held in the metadata entries of a chunk. -/
def held_in (c : LazySubpool) : List Nat := (c.cells.map (fun e => e.slot)).filter (fun a => a ≠ 0)

/-- Number of copies of the address `a` that exist: in the caller's hands and in
the metadata entries of the chunks of both chains. -/
def tally (a : Nat) (σ : Sys) : Nat :=
  σ.live.count a +
    ((σ.pool.used_subpools ++ σ.pool.free_subpools).map (fun c => (held_in c).count a)).sum

/-- An address lies in the data block of one of the chunks created. -/
def covered (made : List Block) (a : Nat) : Prop :=
  ∃ b ∈ made, b.base ≤ a ∧ a < b.base + b.bytes

/-- The state after `lazypool_create(16, 2, ..)` on a data block at 4096, three
allocations (the third grows the pool by a chunk at 8192) and the release of the
first address: two addresses are outstanding. -/
def sys_grown : Sys :=
  { pool :=
      { slot_count := 4, used_count := 2, subpool_count := 2, used_subpools := [],
        free_subpools :=
          [{ slot_size := 16, slot_count := 2, used_count := 1, slots := 4096, used_slots := 0,
             free_slots := 4112,
             cells := [{ next := 0, slot := 0 }, { next := 0, slot := 4128 }] },
           { slot_size := 16, slot_count := 2, used_count := 1, slots := 8192, used_slots := 0,
             free_slots := 8208,
             cells := [{ next := 0, slot := 0 }, { next := 0, slot := 8240 }] }] },
    live := [8224, 4144],
    made := [{ base := 8192, slot_size := 16, slot_count := 2 },
             { base := 4096, slot_size := 16, slot_count := 2 }] }

/-- The pool that `lazypool_create(16, 2, ..)` builds on a data block at 4096. -/
def pool_16_2 : LazyPool :=
  { slot_count := 2, used_count := 0, subpool_count := 1, used_subpools := [],
    free_subpools :=
      [{ slot_size := 16, slot_count := 2, used_count := 0, slots := 4096, used_slots := 0,
         free_slots := 4096,
         cells := [{ next := 4112, slot := 4128 }, { next := 0, slot := 4144 }] }] }

/-- The chunk created on a data block at `b` after its first `j` slots were handed
out in order and none given back. -/
def chunk_after (s n b j : Nat) : LazySubpool :=
  { slot_size := s, slot_count := n, used_count := j, slots := b, used_slots := 0,
    free_slots := if j < n then b + SIZEOF_SLOT * j else 0,
    cells := List.replicate j { next := 0, slot := 0 } ++ _init_slots_loop b s n (n - j) j }

/-- The pool of one chunk after its first `j` slots were handed out. -/
def pool_after (s n b j : Nat) : LazyPool :=
  { slot_count := n, used_count := j, subpool_count := 1, used_subpools := [],
    free_subpools := [chunk_after s n b j] }

/-- The pool after growth: the full first chunk in the exhausted chain, the new
chunk with one slot out at the head of the available chain. -/
def pool_grown (s n b1 b2 : Nat) : LazyPool :=
  { slot_count := 2 * n, used_count := n + 1, subpool_count := 2,
    used_subpools := [chunk_after s n b1 n],
    free_subpools := [chunk_after (s % UINT_MOD) n b2 1] }

/-- The counters `freeded_count`, `pool->subpool_count` and `pool->slot_count` at the
moment the loop of `lazypool_free_unused` stops: at its end, or at the write
`before->next = next` into a freed chunk, which comes after the three updates of
the iteration. -/
def free_unused_counts : Option Bool → List LazySubpool → Nat × Nat × Nat → Nat × Nat × Nat
  | _, [], acc => acc
  | before, actual :: next, (freeded_count, subpool_count, slot_count) =>
    if actual.used_count = 0 then
      if before = some true then
        (uadd freeded_count actual.slot_count, usub subpool_count 1,
          usub slot_count actual.slot_count)
      else
        free_unused_counts (some true) next
          (uadd freeded_count actual.slot_count, usub subpool_count 1,
            usub slot_count actual.slot_count)
    else free_unused_counts (some false) next (freeded_count, subpool_count, slot_count)

/-- The address that `_init_slots_` stores in entry `i`:
`data + (sizeof(struct _lazyslot_) * slot_count + slot_size * i)` as the C
expression computes it. -/
def payload_addr (s n b i : Nat) : Nat := uadd b (uadd (umul SIZEOF_SLOT n) (umul s i))

/-- Subtracting and adding back is the identity modulo `2 ^ 64`. -/
theorem usub_add_modEq (x y : Nat) : usub x y + y ≡ x [MOD ULONG_MOD] := by
  unfold usub
  have hy : y % ULONG_MOD < ULONG_MOD := Nat.mod_lt _ (by norm_num)
  have h1 : (x % ULONG_MOD + ULONG_MOD - y % ULONG_MOD) % ULONG_MOD + y % ULONG_MOD
      ≡ x % ULONG_MOD + ULONG_MOD [MOD ULONG_MOD] := by
    have : (x % ULONG_MOD + ULONG_MOD - y % ULONG_MOD) + y % ULONG_MOD = x % ULONG_MOD + ULONG_MOD := by
      omega
    calc (x % ULONG_MOD + ULONG_MOD - y % ULONG_MOD) % ULONG_MOD + y % ULONG_MOD
        ≡ (x % ULONG_MOD + ULONG_MOD - y % ULONG_MOD) + y % ULONG_MOD [MOD ULONG_MOD] :=
          Nat.ModEq.add_right _ (Nat.mod_modEq _ _)
      _ = x % ULONG_MOD + ULONG_MOD := this
  have h2 : x % ULONG_MOD + ULONG_MOD ≡ x [MOD ULONG_MOD] := by
    calc x % ULONG_MOD + ULONG_MOD ≡ x % ULONG_MOD [MOD ULONG_MOD] := by
          simp [Nat.ModEq]
      _ ≡ x [MOD ULONG_MOD] := Nat.mod_modEq _ _
  have h3 : (x % ULONG_MOD + ULONG_MOD - y % ULONG_MOD) % ULONG_MOD + y
      ≡ (x % ULONG_MOD + ULONG_MOD - y % ULONG_MOD) % ULONG_MOD + y % ULONG_MOD [MOD ULONG_MOD] :=
    Nat.ModEq.add_left _ (Nat.mod_modEq _ _).symm
  exact h3.trans (h1.trans h2)

/-- The sum behind the accessor identity, in `unsigned long` arithmetic. -/
theorem accessor_sum (x y s : Nat) : uadd (umul (usub x y) s) (umul y s) = umul x s := by
  unfold uadd umul
  have h := (usub_add_modEq x y).mul_right s
  rw [Nat.add_mul] at h
  have h4 : (usub x y * s) % ULONG_MOD + (y * s) % ULONG_MOD ≡ usub x y * s + y * s [MOD ULONG_MOD] :=
    Nat.ModEq.add (Nat.mod_modEq _ _) (Nat.mod_modEq _ _)
  exact h4.trans h

/-- Addition does not wrap below `2 ^ 64`. -/
theorem uadd_small {a b : Nat} (h : a + b < ULONG_MOD) : uadd a b = a + b := by
  unfold uadd; exact Nat.mod_eq_of_lt h

/-- Subtraction does not wrap when the result is not negative. -/
theorem usub_small {a b : Nat} (ha : a < ULONG_MOD) (hb : b ≤ a) : usub a b = a - b := by
  unfold usub
  have hb' : b < ULONG_MOD := lt_of_le_of_lt hb ha
  rw [Nat.mod_eq_of_lt ha, Nat.mod_eq_of_lt hb']
  have : a + ULONG_MOD - b = (a - b) + ULONG_MOD := by omega
  rw [this, Nat.add_mod_right]
  exact Nat.mod_eq_of_lt (by omega)

/-- Multiplication does not wrap below `2 ^ 64`. -/
theorem umul_small {a b : Nat} (h : a * b < ULONG_MOD) : umul a b = a * b := by
  unfold umul; exact Nat.mod_eq_of_lt h

/-! ## What the calls do when they return -/

/-- The test `_is_valid_ptr_` in terms of `owns`. -/
theorem is_valid_iff_owns (q : Nat) (c : LazySubpool) : _is_valid_ptr_ q c = true ↔ owns q c := by
  simp [_is_valid_ptr_, owns, payload_start, payload_last]

/-- For a chunk with at least one slot whose payload region does not wrap around
`2 ^ 64`, the range test is the one over the integers. -/
theorem owns_iff_plain (q : Nat) (c : LazySubpool) (hn : 1 ≤ c.slot_count)
    (hfit : c.slots + SIZEOF_SLOT * c.slot_count + c.slot_size * (c.slot_count - 1)
      < ULONG_MOD) :
    owns q c ↔
      c.slots + SIZEOF_SLOT * c.slot_count ≤ q ∧
      q ≤ c.slots + SIZEOF_SLOT * c.slot_count + c.slot_size * (c.slot_count - 1) := by
  have hnM : c.slot_count < ULONG_MOD := by
    have : c.slot_count ≤ SIZEOF_SLOT * c.slot_count := by simp only [SIZEOF_SLOT]; omega
    omega
  have e0 : usub c.slot_count 1 = c.slot_count - 1 := usub_small hnM hn
  have e1 : umul SIZEOF_SLOT c.slot_count = SIZEOF_SLOT * c.slot_count := umul_small (by omega)
  have e2 : umul c.slot_size (c.slot_count - 1) = c.slot_size * (c.slot_count - 1) :=
    umul_small (by omega)
  have e3 : uadd c.slots (SIZEOF_SLOT * c.slot_count) = c.slots + SIZEOF_SLOT * c.slot_count :=
    uadd_small (by omega)
  have e4 : uadd (c.slots + SIZEOF_SLOT * c.slot_count) (c.slot_size * (c.slot_count - 1))
      = c.slots + SIZEOF_SLOT * c.slot_count + c.slot_size * (c.slot_count - 1) :=
    uadd_small (by omega)
  simp only [owns, payload_start, payload_last, e0, e1, e2, e3, e4]

/-- Outcome of `_deallocate_from_subpool_` when it returns. -/
theorem dealloc_sub_spec {q : Nat} {c : LazySubpool} {code : Code} {c1 : LazySubpool}
    (h : _deallocate_from_subpool_ q c = .ok (code, c1)) :
    (_is_valid_ptr_ q c = false ∧ code = .LAZYPOOL_ERR_ILLEGAL_PTR ∧ c1 = c) ∨
    (_is_valid_ptr_ q c = true ∧ code = .LAZYPOOL_OK ∧
      ∃ i w, c1 = { c with cells := c.cells.set i { next := c.free_slots, slot := q },
                           used_count := usub c.used_count 1,
                           free_slots := w }) := by
  unfold _deallocate_from_subpool_ at h
  cases hv : _is_valid_ptr_ q c with
  | false =>
    simp [hv] at h
    exact Or.inl ⟨rfl, h.1.symm, h.2.symm⟩
  | true =>
    right
    simp only [hv, Bool.not_true, Bool.false_eq_true, ↓reduceIte] at h
    cases h1 : _get_index_from_ptr_ q c with
    | error e => simp [h1, bind, Except.bind] at h
    | ok index =>
      cases h2 : _get_slot_ index c with
      | error e => simp [h1, h2, bind, Except.bind] at h
      | ok winner =>
        cases h3 : store c winner { next := c.free_slots, slot := q } with
        | error e => simp [h1, h2, h3, bind, Except.bind] at h
        | ok c2 =>
          simp [h1, h2, h3, bind, Except.bind] at h
          obtain ⟨rfl, rfl⟩ := h
          refine ⟨rfl, rfl, ?_⟩
          unfold store at h3
          cases h4 : cell_index c winner with
          | error e => simp [h4, bind, Except.bind] at h3
          | ok i =>
            simp [h4, bind, Except.bind] at h3
            subst h3
            exact ⟨i, winner, rfl⟩

/-- Outcome of the scan of the exhausted chain when it returns. -/
theorem used_loop_spec (q : Nat) (pool : LazyPool) :
    ∀ (chain before : List LazySubpool) (code : Code) (pool1 : LazyPool),
    _deallocate_from_used_loop q pool before chain = .ok (code, pool1) →
    (code = .LAZYPOOL_ERR_ILLEGAL_PTR ∧ pool1 = pool ∧ ∀ c ∈ chain, _is_valid_ptr_ q c = false) ∨
    (code = .LAZYPOOL_OK ∧ ∃ pre c next c1, chain = pre ++ c :: next ∧
      (∀ x ∈ pre, _is_valid_ptr_ q x = false) ∧ _is_valid_ptr_ q c = true ∧
      _deallocate_from_subpool_ q c = .ok (.LAZYPOOL_OK, c1) ∧
      pool1 = { pool with used_count := usub pool.used_count 1,
                          free_subpools := c1 :: pool.free_subpools,
                          used_subpools := before ++ (pre ++ next) }) := by
  intro chain
  induction chain with
  | nil =>
    intro before code pool1 h
    simp [_deallocate_from_used_loop] at h
    exact Or.inl ⟨h.1.symm, h.2.symm, by simp⟩
  | cons actual next ih =>
    intro before code pool1 h
    unfold _deallocate_from_used_loop at h
    cases hv : _is_valid_ptr_ q actual with
    | false =>
      simp only [hv, Bool.false_eq_true, ↓reduceIte] at h
      rcases ih _ _ _ h with ⟨h1, h2, h3⟩ | ⟨h1, pre, c, nx, c1, h2, h3, h4, h5, h6⟩
      · left
        refine ⟨h1, h2, ?_⟩
        intro c hc
        rcases List.mem_cons.1 hc with rfl | hc
        · exact hv
        · exact h3 c hc
      · right
        refine ⟨h1, actual :: pre, c, nx, c1, by simp [h2], ?_, h4, h5, ?_⟩
        · intro x hx
          rcases List.mem_cons.1 hx with rfl | hx
          · exact hv
          · exact h3 x hx
        · simpa using h6
    | true =>
      simp only [hv, ↓reduceIte] at h
      cases hd : _deallocate_from_subpool_ q actual with
      | error e => simp [hd, bind, Except.bind] at h
      | ok r =>
        obtain ⟨err, actual1⟩ := r
        rcases dealloc_sub_spec hd with ⟨h1, _, _⟩ | ⟨_, h2, _⟩
        · rw [hv] at h1; cases h1
        · subst h2
          simp [hd, bind, Except.bind, Code.is_err] at h
          right
          exact ⟨h.1.symm, [], actual, next, actual1, rfl, by simp, hv, hd, by simp [h.2]⟩

/-- The scan of the exhausted chain when no chunk passes the range test. -/
theorem used_loop_illegal (q : Nat) (pool : LazyPool) :
    ∀ (chain before : List LazySubpool), (∀ c ∈ chain, _is_valid_ptr_ q c = false) →
    _deallocate_from_used_loop q pool before chain = .ok (.LAZYPOOL_ERR_ILLEGAL_PTR, pool) := by
  intro chain
  induction chain with
  | nil => intro before _; rfl
  | cons actual next ih =>
    intro before h
    unfold _deallocate_from_used_loop
    have hv := h actual (List.mem_cons_self _ _)
    simp only [hv, Bool.false_eq_true, ↓reduceIte]
    exact ih _ (fun c hc => h c (List.mem_cons_of_mem _ hc))

/-- Outcome of the scan of the available chain when it returns. -/
theorem free_loop_spec (q : Nat) (pool : LazyPool) :
    ∀ (chain before : List LazySubpool) (code : Code) (pool1 : LazyPool),
    _deallocate_from_free_loop q pool before chain = .ok (code, pool1) →
    (code = .LAZYPOOL_ERR_ILLEGAL_PTR ∧ pool1 = pool ∧ ∀ c ∈ chain, _is_valid_ptr_ q c = false) ∨
    (code = .LAZYPOOL_OK ∧ ∃ pre c next c1, chain = pre ++ c :: next ∧
      (∀ x ∈ pre, _is_valid_ptr_ q x = false) ∧ _is_valid_ptr_ q c = true ∧
      _deallocate_from_subpool_ q c = .ok (.LAZYPOOL_OK, c1) ∧
      pool1 = { pool with used_count := usub pool.used_count 1,
                          free_subpools := before ++ (pre ++ c1 :: next) }) := by
  intro chain
  induction chain with
  | nil =>
    intro before code pool1 h
    simp [_deallocate_from_free_loop] at h
    exact Or.inl ⟨h.1.symm, h.2.symm, by simp⟩
  | cons actual next ih =>
    intro before code pool1 h
    unfold _deallocate_from_free_loop at h
    cases hv : _is_valid_ptr_ q actual with
    | false =>
      simp only [hv, Bool.false_eq_true, ↓reduceIte] at h
      rcases ih _ _ _ h with ⟨h1, h2, h3⟩ | ⟨h1, pre, c, nx, c1, h2, h3, h4, h5, h6⟩
      · left
        refine ⟨h1, h2, ?_⟩
        intro c hc
        rcases List.mem_cons.1 hc with rfl | hc
        · exact hv
        · exact h3 c hc
      · right
        refine ⟨h1, actual :: pre, c, nx, c1, by simp [h2], ?_, h4, h5, ?_⟩
        · intro x hx
          rcases List.mem_cons.1 hx with rfl | hx
          · exact hv
          · exact h3 x hx
        · simpa using h6
    | true =>
      simp only [hv, ↓reduceIte] at h
      cases hd : _deallocate_from_subpool_ q actual with
      | error e => simp [hd, bind, Except.bind] at h
      | ok r =>
        obtain ⟨err, actual1⟩ := r
        rcases dealloc_sub_spec hd with ⟨h1, _, _⟩ | ⟨_, h2, _⟩
        · rw [hv] at h1; cases h1
        · subst h2
          simp [hd, bind, Except.bind, Code.is_err] at h
          right
          exact ⟨h.1.symm, [], actual, next, actual1, rfl, by simp, hv, hd, by simp [h.2]⟩

/-- The scan of the available chain when no chunk passes the range test. -/
theorem free_loop_illegal (q : Nat) (pool : LazyPool) :
    ∀ (chain before : List LazySubpool), (∀ c ∈ chain, _is_valid_ptr_ q c = false) →
    _deallocate_from_free_loop q pool before chain = .ok (.LAZYPOOL_ERR_ILLEGAL_PTR, pool) := by
  intro chain
  induction chain with
  | nil => intro before _; rfl
  | cons actual next ih =>
    intro before h
    unfold _deallocate_from_free_loop
    have hv := h actual (List.mem_cons_self _ _)
    simp only [hv, Bool.false_eq_true, ↓reduceIte]
    exact ih _ (fun c hc => h c (List.mem_cons_of_mem _ hc))

/-- Outcome of `lazypool_deallocate` on a non-null address when it returns. -/
theorem deallocate_spec {q : Nat} (hq : q ≠ 0) {pool pool1 : LazyPool} {code : Code}
    {ref : Option Nat} (h : lazypool_deallocate (some q) pool = .ok (code, ref, pool1)) :
    ref = some q ∧
    ((code = .LAZYPOOL_ERR_ILLEGAL_PTR ∧ pool1 = pool ∧
        ∀ c ∈ pool.used_subpools ++ pool.free_subpools, _is_valid_ptr_ q c = false) ∨
     (code = .LAZYPOOL_OK ∧ ∃ pre c next c1, pool.used_subpools = pre ++ c :: next ∧
        (∀ x ∈ pre, _is_valid_ptr_ q x = false) ∧ _is_valid_ptr_ q c = true ∧
        _deallocate_from_subpool_ q c = .ok (.LAZYPOOL_OK, c1) ∧
        pool1 = { pool with used_count := usub pool.used_count 1,
                            free_subpools := c1 :: pool.free_subpools,
                            used_subpools := pre ++ next }) ∨
     (code = .LAZYPOOL_OK ∧ (∀ x ∈ pool.used_subpools, _is_valid_ptr_ q x = false) ∧
        ∃ pre c next c1, pool.free_subpools = pre ++ c :: next ∧
        (∀ x ∈ pre, _is_valid_ptr_ q x = false) ∧ _is_valid_ptr_ q c = true ∧
        _deallocate_from_subpool_ q c = .ok (.LAZYPOOL_OK, c1) ∧
        pool1 = { pool with used_count := usub pool.used_count 1,
                            free_subpools := pre ++ c1 :: next })) := by
  unfold lazypool_deallocate at h
  simp only [hq, ↓reduceIte] at h
  cases hu : _deallocate_from_used_subpools q pool with
  | error e => simp [hu, bind, Except.bind] at h
  | ok r =>
    obtain ⟨err, p1⟩ := r
    unfold _deallocate_from_used_subpools at hu
    rcases used_loop_spec q pool _ _ _ _ hu with ⟨h1, h2, h3⟩ | ⟨h1, pre, c, nx, c1, h2, h3, h4, h5, h6⟩
    · subst h1; subst h2
      simp only [_deallocate_from_used_subpools, hu, bind, Except.bind, Code.is_err, ↓reduceIte] at h
      cases hf : _deallocate_from_free_subpools q p1 with
      | error e => simp [hf] at h
      | ok r2 =>
        obtain ⟨err2, p2⟩ := r2
        simp [hf] at h
        obtain ⟨rfl, rfl, rfl⟩ := h
        refine ⟨rfl, ?_⟩
        unfold _deallocate_from_free_subpools at hf
        rcases free_loop_spec q p1 _ _ _ _ hf with ⟨g1, g2, g3⟩ | ⟨g1, pre, c, nx, c1, g2, g3, g4, g5, g6⟩
        · left
          refine ⟨g1, g2, ?_⟩
          intro c hc
          rcases List.mem_append.1 hc with hc | hc
          · exact h3 c hc
          · exact g3 c hc
        · right; right
          exact ⟨g1, h3, pre, c, nx, c1, g2, g3, g4, g5, by simpa using g6⟩
    · subst h1
      simp only [_deallocate_from_used_subpools, hu, bind, Except.bind, Code.is_err, ↓reduceIte] at h
      simp at h
      obtain ⟨rfl, rfl, rfl⟩ := h
      refine ⟨rfl, Or.inr (Or.inl ⟨rfl, pre, c, nx, c1, h2, h3, h4, h5, by simpa using h6⟩)⟩

/-- Outcome of `_allocate_from_subpool_` when it returns. -/
theorem alloc_sub_spec {c c1 : LazySubpool} {p : Nat} {e : Code}
    (h : _allocate_from_subpool_ c = .ok (p, e, c1)) :
    (c.used_count = c.slot_count ∧ p = 0 ∧ e = .LAZYPOOL_ERR_FULL ∧ c1 = c) ∨
    (c.used_count ≠ c.slot_count ∧ e = .LAZYPOOL_OK ∧
      ∃ i cell, cell_index c c.free_slots = .ok i ∧ c.cells[i]? = some cell ∧ p = cell.slot ∧
        c1 = { c with free_slots := cell.next,
                      cells := c.cells.set i { next := 0, slot := 0 },
                      used_count := uadd c.used_count 1 }) := by
  unfold _allocate_from_subpool_ at h
  by_cases hfull : c.used_count = c.slot_count
  · simp [hfull] at h
    exact Or.inl ⟨hfull, h.1.symm, h.2.1.symm, h.2.2.symm⟩
  · right
    simp only [hfull, ↓reduceIte] at h
    unfold load store at h
    cases hi : cell_index c c.free_slots with
    | error x => simp [hi, bind, Except.bind] at h
    | ok i =>
      have hi2 : ∀ nx, cell_index { c with free_slots := nx } c.free_slots = .ok i := by
        intro nx; simpa [cell_index] using hi
      cases hc : c.cells[i]? with
      | none => simp [hi, hc, bind, Except.bind] at h
      | some cell =>
        simp [hi, hi2, hc, bind, Except.bind] at h
        obtain ⟨rfl, rfl, rfl⟩ := h
        exact ⟨hfull, rfl, i, cell, rfl, hc, rfl, rfl⟩

/-- A chunk is created only on a non-null data block, and it is the initialised
chunk on that block. -/
theorem create_subpool_some {s n data : Nat} {fresh : LazySubpool}
    (h : _create_subpool_ s n (some data) = some fresh) :
    data ≠ 0 ∧
    { slot_size := s, slot_count := n, used_count := 0, slots := data, used_slots := 0,
      free_slots := data, cells := _init_slots_loop data s n n 0 } = fresh := by
  by_cases hd : data = 0
  · simp [_create_subpool_, hd] at h
  · simp [_create_subpool_, _init_slots_, hd] at h
    exact ⟨hd, h⟩

/-- Outcome of `lazypool_allocate` when it returns. -/
theorem allocate_spec {pool pool1 : LazyPool} {mem : Option Nat} {p : Nat} {e : Code}
    (h : lazypool_allocate pool mem = .ok (p, e, pool1)) :
    (p = 0 ∧ e = .LAZYPOOL_ERR_ALLOC_MEM ∧ pool1 = pool ∧ pool.used_count = pool.slot_count ∧
      (mem = none ∨ mem = some 0)) ∨
    (p ≠ 0 ∧ pool.used_count ≠ pool.slot_count ∧ ∃ c rest c1,
      pool.free_subpools = c :: rest ∧ _allocate_from_subpool_ c = .ok (p, e, c1) ∧
      pool1 = { pool with free_subpools := c1 :: rest,
                          used_count := uadd pool.used_count 1 }) ∨
    (p ≠ 0 ∧ pool.used_count = pool.slot_count ∧ ∃ head tail data fresh c1,
      pool.free_subpools = head :: tail ∧ mem = some data ∧
      _create_subpool_ (head.slot_size % UINT_MOD) (head.slot_count % UINT_MOD) (some data)
        = some fresh ∧
      _allocate_from_subpool_ fresh = .ok (p, e, c1) ∧
      pool1 = { slot_count := uadd pool.slot_count (head.slot_count % UINT_MOD),
                used_count := uadd pool.used_count 1,
                subpool_count := uadd pool.subpool_count 1,
                used_subpools := head :: pool.used_subpools,
                free_subpools := [c1] }) := by
  unfold lazypool_allocate at h
  by_cases hfull : pool.used_count = pool.slot_count
  · simp only [hfull, ↓reduceIte] at h
    cases hf : pool.free_subpools with
    | nil => simp [hf, bind, Except.bind] at h
    | cons head tail =>
      cases mem with
      | none =>
        simp [hf, bind, Except.bind, _add_subpool_, _create_subpool_] at h
        exact Or.inl ⟨h.1.symm, h.2.1.symm, h.2.2.symm, hfull, Or.inl rfl⟩
      | some data =>
        by_cases hd : data = 0
        · subst hd
          simp [hf, bind, Except.bind, _add_subpool_, _create_subpool_] at h
          exact Or.inl ⟨h.1.symm, h.2.1.symm, h.2.2.symm, hfull, Or.inr rfl⟩
        right; right
        simp only [hf, bind, Except.bind, _add_subpool_, _create_subpool_, hd, ↓reduceIte,
          List.head?_cons] at h
        cases ha : _allocate_from_subpool_
            (_init_slots_ { slot_size := head.slot_size % UINT_MOD,
                            slot_count := head.slot_count % UINT_MOD, used_count := 0,
                            slots := data, used_slots := 0, free_slots := data, cells := [] }) with
        | error x => simp [ha] at h
        | ok r =>
          obtain ⟨ptr, err, c1⟩ := r
          simp only [ha] at h
          by_cases hp : ptr = 0
          · simp [hp] at h
          · simp [hp] at h
            obtain ⟨rfl, rfl, rfl⟩ := h
            exact ⟨hp, hfull, head, tail, data, _, c1, rfl, rfl,
              by simp [_create_subpool_, hd], ha, by simp [hfull]⟩
  · right; left
    simp only [hfull, ↓reduceIte, bind, Except.bind] at h
    cases hf : pool.free_subpools with
    | nil => simp [hf] at h
    | cons c rest =>
      simp only [hf] at h
      cases ha : _allocate_from_subpool_ c with
      | error x => simp [ha] at h
      | ok r =>
        obtain ⟨ptr, err, c1⟩ := r
        simp only [ha] at h
        by_cases hp : ptr = 0
        · simp [hp] at h
        · simp [hp] at h
          obtain ⟨rfl, rfl, rfl⟩ := h
          exact ⟨hp, hfull, c, rest, c1, rfl, ha, rfl⟩

/-! ## Invariants of the reachable states -/

/-- Slots of two lists of chunks add up. -/
theorem slots_made_append (l1 l2 : List Block) :
    slots_made (l1 ++ l2) = slots_made l1 + slots_made l2 := by
  simp [slots_made]

/-- A full pool with a head chunk grows by one chunk when `malloc` succeeds. -/
theorem grown_of_full {pool : LazyPool} {head : LazySubpool} {tail : List LazySubpool}
    {data : Nat} (hfull : pool.used_count = pool.slot_count)
    (hf : pool.free_subpools = head :: tail) (hd : data ≠ 0) :
    grown pool (some data)
      = [{ base := data, slot_size := head.slot_size % UINT_MOD,
           slot_count := head.slot_count % UINT_MOD }] := by
  simp [grown, hfull, hf, hd]

/-- A pool that is not full creates no chunk. -/
theorem grown_of_not_full {pool : LazyPool} (mem : Option Nat)
    (hfull : pool.used_count ≠ pool.slot_count) : grown pool mem = [] := by
  simp [grown, hfull]

/-- No chunk is created when `malloc` fails. -/
theorem grown_none (pool : LazyPool) : grown pool none = [] := by
  unfold grown
  split
  · cases pool.free_subpools <;> rfl
  · rfl

/-- No chunk is created when `malloc` returns `NULL`, whichever way it is written. -/
theorem grown_failed (pool : LazyPool) (mem : Option Nat) (h : mem = none ∨ mem = some 0) :
    grown pool mem = [] := by
  rcases h with rfl | rfl
  · exact grown_none pool
  · unfold grown
    split
    · cases pool.free_subpools <;> rfl
    · rfl

/-- The counters of a reachable pool, as long as fewer than `2 ^ 64` slots were
created: `slot_count` is the number of slots created, `used_count` the number of
outstanding addresses, and no outstanding address is null. -/
theorem reach_counters {s n : Nat} {σ : Sys} (h : Reach s n σ) :
    0 ∉ σ.live ∧
    (slots_made σ.made < ULONG_MOD →
      σ.pool.slot_count = slots_made σ.made ∧ σ.pool.used_count = σ.live.length ∧
      σ.pool.used_count ≤ σ.pool.slot_count) := by
  induction h with
  | create data pool hc =>
    refine ⟨by simp, ?_⟩
    intro hsum
    simp [slots_made] at hsum
    by_cases hd0 : data = 0
    · simp [lazypool_create, _add_subpool_, _create_subpool_, _create_pool_, hd0] at hc
    simp [lazypool_create, _add_subpool_, _create_subpool_, _create_pool_, hd0] at hc
    subst hc
    simp [slots_made, uadd, Nat.mod_eq_of_lt hsum]
  | allocate σ mem ptr err pool1 hr ha ih =>
    obtain ⟨ih0, ih⟩ := ih
    rcases allocate_spec ha with ⟨h1, _, h3, _, h5⟩ | ⟨h1, h2, c, rest, c1, h3, h4, h5⟩ |
      ⟨h1, h2, head, tail, data, fresh, c1, h3, h4, h5, h6, h7⟩
    · subst h1; subst h3
      simpa [grown_failed _ _ h5] using And.intro ih0 ih
    · refine ⟨by simp [h1]; exact ⟨Ne.symm h1, ih0⟩, ?_⟩
      intro hsum
      simp only [grown_of_not_full mem h2, List.nil_append] at hsum
      obtain ⟨i1, i2, i3⟩ := ih hsum
      have hlt : σ.pool.used_count < σ.pool.slot_count := lt_of_le_of_ne i3 h2
      subst h5
      simp only [grown_of_not_full mem h2, List.nil_append, h1, ↓reduceIte, List.length_cons]
      rw [uadd_small (by omega)]
      exact ⟨i1, by omega, by omega⟩
    · refine ⟨by simp [h1]; exact ⟨Ne.symm h1, ih0⟩, ?_⟩
      intro hsum
      subst h4
      obtain ⟨hd0, h5⟩ := create_subpool_some h5
      rw [grown_of_full h2 h3 hd0, slots_made_append] at hsum
      have hsum0 : slots_made σ.made < ULONG_MOD := by omega
      obtain ⟨i1, i2, i3⟩ := ih hsum0
      have hn : fresh.slot_count = head.slot_count % UINT_MOD := by
        subst h5; rfl
      have hu : fresh.used_count = 0 := by
        subst h5; rfl
      have hpos : 0 < head.slot_count % UINT_MOD := by
        rcases alloc_sub_spec h6 with ⟨_, g2, _⟩ | ⟨g1, _⟩
        · exact absurd g2 h1
        · rw [hu, hn] at g1
          omega
      subst h7
      simp only [grown_of_full h2 h3 hd0, slots_made_append, h1, ↓reduceIte, List.length_cons]
      simp only [slots_made, List.map_cons, List.map_nil, List.sum_cons, List.sum_nil,
        Nat.add_zero] at hsum ⊢
      simp only [slots_made] at i1
      rw [uadd_small (by omega), uadd_small (by omega)]
      exact ⟨by omega, by omega, by omega⟩
  | deallocate σ p code ref pool1 hr hp hd ih =>
    obtain ⟨ih0, ih⟩ := ih
    have hp0 : p ≠ 0 := fun h0 => ih0 (h0 ▸ hp)
    have hlen : 0 < σ.live.length := List.length_pos_of_mem hp
    have hok : ∀ pl : LazyPool, pl.slot_count = σ.pool.slot_count →
        pl.used_count = usub σ.pool.used_count 1 →
        (0 ∉ σ.live.erase p ∧ (slots_made σ.made < ULONG_MOD →
          pl.slot_count = slots_made σ.made ∧ pl.used_count = (σ.live.erase p).length ∧
          pl.used_count ≤ pl.slot_count)) := by
      intro pl e1 e2
      refine ⟨fun hm => ih0 (List.mem_of_mem_erase hm), ?_⟩
      intro hsum
      obtain ⟨i1, i2, i3⟩ := ih hsum
      rw [e1, e2, usub_small (by omega) (by omega), List.length_erase_of_mem hp]
      exact ⟨i1, by omega, by omega⟩
    rcases (deallocate_spec hp0 hd).2 with ⟨h1, h2, _⟩ | ⟨h1, pre, c, nx, c1, _, _, _, _, h6⟩ |
      ⟨h1, _, pre, c, nx, c1, _, _, _, _, h6⟩
    · subst h1; subst h2
      simpa using And.intro ih0 ih
    · subst h1
      have e1 : pool1.slot_count = σ.pool.slot_count := by rw [h6]
      have e2 : pool1.used_count = usub σ.pool.used_count 1 := by rw [h6]
      simpa using hok pool1 e1 e2
    · subst h1
      have e1 : pool1.slot_count = σ.pool.slot_count := by rw [h6]
      have e2 : pool1.used_count = usub σ.pool.used_count 1 := by rw [h6]
      simpa using hok pool1 e1 e2

/-- Counting an address in a list after one entry was overwritten. -/
theorem count_set_some (a v : Nat) : ∀ (l : List Nat) (i : Nat) (w : Nat), l[i]? = some w →
    (l.set i v).count a + (if a = w then 1 else 0) = l.count a + (if a = v then 1 else 0) := by
  intro l
  induction l with
  | nil => intro i w h; simp at h
  | cons x xs ih =>
    intro i w h
    cases i with
    | zero =>
      simp at h
      subst h
      simp only [List.set_cons_zero, List.count_cons, beq_iff_eq]
      have e1 : (v = a) = (a = v) := propext eq_comm
      have e2 : (x = a) = (a = x) := propext eq_comm
      simp only [e1, e2]
      omega
    | succ j =>
      simp at h
      have := ih j w h
      simp only [List.set_cons_succ, List.count_cons]
      omega

/-- Copies of an address among the addresses held by a chunk. -/
theorem count_held_in (a : Nat) (c : LazySubpool) :
    (held_in c).count a = if a = 0 then 0 else (c.cells.map (fun e => e.slot)).count a := by
  unfold held_in
  by_cases h : a = 0
  · subst h
    simp [List.count_eq_zero]
  · rw [if_neg h, List.count_filter]
    simpa using h

/-- A pop moves one address out of the chunk's metadata. -/
theorem held_in_pop (c c1 : LazySubpool) {i : Nat} {cell : LazySlot}
    (hc : c.cells[i]? = some cell) (hp : cell.slot ≠ 0)
    (h1 : c1.cells = c.cells.set i { next := 0, slot := 0 }) (a : Nat) :
    (held_in c1).count a + (if a = cell.slot then 1 else 0) = (held_in c).count a := by
  rw [count_held_in, count_held_in, h1, List.map_set]
  have hm : (c.cells.map (fun e => e.slot))[i]? = some cell.slot := by
    simp [List.getElem?_map, hc]
  have := count_set_some a 0 _ i _ hm
  by_cases ha : a = 0
  · subst ha
    have : ¬ (0 = cell.slot) := fun h => hp h.symm
    simp [this]
  · simp only [ha, ↓reduceIte] at this ⊢
    omega

/-- A push brings at most the address given back into the chunk's metadata. -/
theorem held_in_push (c c1 : LazySubpool) (i nx q : Nat)
    (h1 : c1.cells = c.cells.set i { next := nx, slot := q }) (a : Nat) :
    (held_in c1).count a ≤ (held_in c).count a + (if a = q then 1 else 0) := by
  rw [count_held_in, count_held_in, h1, List.map_set]
  by_cases ha : a = 0
  · simp [ha]
  · simp only [ha, ↓reduceIte]
    cases hm : (c.cells.map (fun e => e.slot))[i]? with
    | none =>
      have hlen : (c.cells.map (fun e => e.slot)).length ≤ i := by
        simpa [List.getElem?_eq_none_iff] using hm
      rw [List.set_eq_of_length_le hlen]
      omega
    | some w =>
      have := count_set_some a q _ i w hm
      omega

/-- The payload addresses written by the loop of `_init_slots_` are pairwise
different and lie in the payload region, when the block does not wrap. -/
theorem init_loop_count {data s n : Nat} (hs : 1 ≤ s)
    (hfit : data + (SIZEOF_SLOT * n + s * n) ≤ ULONG_MOD) (a : Nat) :
    ∀ k i, i + k ≤ n →
      ((_init_slots_loop data s n k i).map (fun e => e.slot)).count a ≤ 1 ∧
      (1 ≤ ((_init_slots_loop data s n k i).map (fun e => e.slot)).count a →
        data + SIZEOF_SLOT * n + s * i ≤ a ∧ a < data + SIZEOF_SLOT * n + s * (i + k)) := by
  intro k
  induction k with
  | zero => intro i _; simp [_init_slots_loop]
  | succ k ih =>
    intro i hik
    have hlt : s * i + s ≤ s * n := by
      have : s * (i + 1) ≤ s * n := Nat.mul_le_mul_left s (by omega)
      simpa [Nat.mul_succ] using this
    have hmono : s * (i + 1) ≤ s * (i + (k + 1)) := Nat.mul_le_mul_left s (by omega)
    have hsucc : s * (i + 1) = s * i + s := Nat.mul_succ s i
    have e1 : umul SIZEOF_SLOT n = SIZEOF_SLOT * n := umul_small (by omega)
    have e2 : umul s i = s * i := umul_small (by omega)
    have e3 : uadd (SIZEOF_SLOT * n) (s * i) = SIZEOF_SLOT * n + s * i := uadd_small (by omega)
    have e4 : uadd data (SIZEOF_SLOT * n + s * i) = data + (SIZEOF_SLOT * n + s * i) :=
      uadd_small (by omega)
    obtain ⟨ih1, ih2⟩ := ih (i + 1) (by omega)
    have hk : i + 1 + k = i + (k + 1) := by omega
    rw [hk] at ih2
    simp only [_init_slots_loop, List.map_cons, List.count_cons, beq_iff_eq, e1, e2, e3, e4]
    by_cases ha : data + (SIZEOF_SLOT * n + s * i) = a
    · simp only [ha, ↓reduceIte]
      have h0 : ((_init_slots_loop data s n k (i + 1)).map (fun e => e.slot)).count a = 0 := by
        by_contra hne
        have := ih2 (by omega)
        omega
      rw [h0]
      constructor
      · omega
      · intro _
        omega
    · simp only [ha, ↓reduceIte, Nat.add_zero]
      refine ⟨ih1, fun h => ?_⟩
      have := ih2 h
      omega

/-- The addresses held by a chunk fresh from `_create_subpool_`: each at most
once, none null, all inside the data block. -/
theorem fresh_count {s n data : Nat} {fresh : LazySubpool}
    (hc : _create_subpool_ s n (some data) = some fresh) (hs : 1 ≤ s)
    (hfit : data + (SIZEOF_SLOT * n + s * n) ≤ ULONG_MOD) (a : Nat) :
    (held_in fresh).count a ≤ 1 ∧
    (1 ≤ (held_in fresh).count a → data ≤ a ∧ a < data + (SIZEOF_SLOT * n + s * n)) := by
  obtain ⟨_, hc⟩ := create_subpool_some hc
  subst hc
  rw [count_held_in]
  obtain ⟨h1, h2⟩ := init_loop_count hs hfit a n 0 (by omega)
  by_cases ha : a = 0
  · simp [ha]
  · simp only [ha, ↓reduceIte]
    refine ⟨h1, fun h => ?_⟩
    have := h2 h
    simp only [Nat.mul_zero, Nat.add_zero, Nat.zero_add] at this
    omega

/-- Well-placed blocks stay well placed when the newest is left out. -/
theorem blocksOk_tail {b : Block} {made : List Block} (h : BlocksOk (b :: made)) :
    BlocksOk made :=
  ⟨fun x hx => h.1 x (List.mem_cons_of_mem _ hx), (List.pairwise_cons.1 h.2).2⟩

/-- Adding a fresh chunk keeps every address single and inside a created block. -/
theorem tally_step_fresh {made : List Block} (blk : Block) {fresh : LazySubpool}
    (hc : _create_subpool_ blk.slot_size blk.slot_count (some blk.base) = some fresh)
    (hok : BlocksOk (blk :: made)) (T T1 : Nat → Nat)
    (h1 : ∀ a, T a ≤ 1) (h2 : ∀ a, 1 ≤ T a → covered made a)
    (hstep : ∀ a, T1 a ≤ T a + (held_in fresh).count a) :
    (∀ a, T1 a ≤ 1) ∧ (∀ a, 1 ≤ T1 a → covered (blk :: made) a) := by
  obtain ⟨hb1, hb2⟩ := hok.1 blk (List.mem_cons_self _ _)
  have hdis := (List.pairwise_cons.1 hok.2).1
  have hf := fun a => fresh_count hc hb2 (by simpa [Block.bytes] using hb1) a
  have hsep : ∀ a, 1 ≤ (held_in fresh).count a → T a = 0 := by
    intro a ha
    by_contra hne
    obtain ⟨b, hb, hlo, hhi⟩ := h2 a (by omega)
    have hr := (hf a).2 ha
    have := hdis b hb
    simp only [Block.bytes] at this hhi
    omega
  constructor
  · intro a
    have := hstep a
    have := h1 a
    have := (hf a).1
    by_cases hz : (held_in fresh).count a = 0
    · omega
    · have := hsep a (by omega)
      omega
  · intro a ha
    have := hstep a
    by_cases hz : (held_in fresh).count a = 0
    · obtain ⟨b, hb, hlo, hhi⟩ := h2 a (by omega)
      exact ⟨b, List.mem_cons_of_mem _ hb, hlo, hhi⟩
    · have hr := (hf a).2 (by omega)
      exact ⟨blk, List.mem_cons_self _ _, hr.1, by simpa [Block.bytes] using hr.2⟩

/-- Counting after one more address is handed out. -/
theorem count_cons_ite (a p : Nat) (l : List Nat) :
    (p :: l).count a = l.count a + (if a = p then 1 else 0) := by
  rw [List.count_cons]
  have e : (p = a) = (a = p) := propext eq_comm
  simp only [beq_iff_eq, e]

/-- Counting after one address is given back. -/
theorem count_erase_ite (a p : Nat) (l : List Nat) :
    (l.erase p).count a = l.count a - (if a = p then 1 else 0) := by
  rw [List.count_erase]
  have e : (p = a) = (a = p) := propext eq_comm
  simp only [beq_iff_eq, e]

/-- In a reachable state whose blocks are well placed, every address exists once
at most, and each address that exists lies in a created block. -/
theorem reach_tally {s n : Nat} {σ : Sys} (h : Reach s n σ) :
    0 ∉ σ.live ∧
    (BlocksOk σ.made → (∀ a, tally a σ ≤ 1) ∧ (∀ a, 1 ≤ tally a σ → covered σ.made a)) := by
  induction h with
  | create data pool hc =>
    refine ⟨by simp, fun hok => ?_⟩
    simp [lazypool_create, _add_subpool_, _create_pool_] at hc
    cases hf : _create_subpool_ s n (some data) with
    | none => simp [hf] at hc
    | some fresh =>
      simp [hf] at hc
      subst hc
      refine tally_step_fresh { base := data, slot_size := s, slot_count := n }
        hf hok (fun _ => 0) _ (by simp) (by simp) ?_
      intro a
      simp [tally]
  | allocate σ mem ptr err pool1 hr ha ih =>
    obtain ⟨ih0, ih⟩ := ih
    rcases allocate_spec ha with ⟨h1, _, h3, _, h5⟩ | ⟨h1, h2, c, rest, c1, h3, h4, h5⟩ |
      ⟨h1, h2, head, tail, data, fresh, c1, h3, h4, h5, h6, h7⟩
    · subst h1; subst h3
      simpa [grown_failed _ _ h5] using And.intro ih0 ih
    · refine ⟨by simp [h1]; exact ⟨Ne.symm h1, ih0⟩, ?_⟩
      intro hok
      simp only [grown_of_not_full mem h2, List.nil_append] at hok ⊢
      obtain ⟨i1, i2⟩ := ih hok
      rcases alloc_sub_spec h4 with ⟨_, g2, _⟩ | ⟨_, _, i, cell, _, g4, g5, g6⟩
      · exact absurd g2 h1
      · have hpop := held_in_pop c c1 g4 (g5 ▸ h1) (by rw [g6])
        have heq : ∀ a, tally a
            ({ pool := pool1, live := (if ptr = 0 then σ.live else ptr :: σ.live),
               made := σ.made } : Sys) = tally a σ := by
          intro a
          have := hpop a
          simp only [tally, h1, ↓reduceIte, h5, h3, count_cons_ite, List.map_append,
            List.sum_append, List.map_cons, List.sum_cons]
          rw [g5]
          omega
        exact ⟨fun a => by rw [heq]; exact i1 a, fun a ha => i2 a (by rw [heq] at ha; exact ha)⟩
    · refine ⟨by simp [h1]; exact ⟨Ne.symm h1, ih0⟩, ?_⟩
      intro hok
      subst h4
      rw [grown_of_full h2 h3 (create_subpool_some h5).1] at hok ⊢
      simp only [List.singleton_append] at hok ⊢
      obtain ⟨i1, i2⟩ := ih (blocksOk_tail hok)
      rcases alloc_sub_spec h6 with ⟨_, g2, _⟩ | ⟨_, _, i, cell, _, g4, g5, g6⟩
      · exact absurd g2 h1
      · have hpop := held_in_pop fresh c1 g4 (g5 ▸ h1) (by rw [g6])
        refine tally_step_fresh
          { base := data, slot_size := head.slot_size % UINT_MOD,
            slot_count := head.slot_count % UINT_MOD }
          h5 hok (fun a => tally a σ) _ i1 i2 ?_
        intro a
        have := hpop a
        simp only [tally, h1, ↓reduceIte, h7, h3, count_cons_ite, List.map_append,
          List.sum_append, List.map_cons, List.sum_cons, List.map_nil, List.sum_nil]
        rw [g5]
        omega
  | deallocate σ p code ref pool1 hr hp hd ih =>
    obtain ⟨ih0, ih⟩ := ih
    have hp0 : p ≠ 0 := fun h0 => ih0 (h0 ▸ hp)
    have hcp : 1 ≤ σ.live.count p := List.count_pos_iff.2 hp
    rcases (deallocate_spec hp0 hd).2 with ⟨h1, h2, _⟩ |
      ⟨h1, pre, c, nx, c1, g1, _, g3, g4, h6⟩ | ⟨h1, _, pre, c, nx, c1, g1, _, g3, g4, h6⟩
    · subst h1; subst h2
      simpa using And.intro ih0 ih
    · subst h1
      refine ⟨fun hm => ih0 (List.mem_of_mem_erase (by simpa using hm)), fun hok => ?_⟩
      obtain ⟨i1, i2⟩ := ih hok
      rcases dealloc_sub_spec g4 with ⟨_, e2, _⟩ | ⟨_, _, i, w, e3⟩
      · cases e2
      · have hpush := held_in_push c c1 i c.free_slots p
          (by rw [e3])
        have hle : ∀ a, tally a
            ({ pool := pool1, live := σ.live.erase p, made := σ.made } : Sys) ≤ tally a σ := by
          intro a
          have := hpush a
          simp only [tally, h6, g1, count_erase_ite, List.map_append, List.sum_append,
            List.map_cons, List.sum_cons]
          by_cases hap : a = p
          · subst hap
            simp only [↓reduceIte] at this ⊢
            omega
          · simp only [hap, ↓reduceIte] at this ⊢
            omega
        simp only [↓reduceIte]
        exact ⟨fun a => le_trans (hle a) (i1 a), fun a ha => i2 a (le_trans ha (hle a))⟩
    · subst h1
      refine ⟨fun hm => ih0 (List.mem_of_mem_erase (by simpa using hm)), fun hok => ?_⟩
      obtain ⟨i1, i2⟩ := ih hok
      rcases dealloc_sub_spec g4 with ⟨_, e2, _⟩ | ⟨_, _, i, w, e3⟩
      · cases e2
      · have hpush := held_in_push c c1 i c.free_slots p
          (by rw [e3])
        have hle : ∀ a, tally a
            ({ pool := pool1, live := σ.live.erase p, made := σ.made } : Sys) ≤ tally a σ := by
          intro a
          have := hpush a
          simp only [tally, h6, g1, count_erase_ite, List.map_append, List.sum_append,
            List.map_cons, List.sum_cons]
          by_cases hap : a = p
          · subst hap
            simp only [↓reduceIte] at this ⊢
            omega
          · simp only [hap, ↓reduceIte] at this ⊢
            omega
        simp only [↓reduceIte]
        exact ⟨fun a => le_trans (hle a) (i1 a), fun a ha => i2 a (le_trans ha (hle a))⟩

/-- The example state is reached by `create(16, 2)`, three allocations and one
deallocation of an outstanding address. -/
theorem reach_sys_grown : Reach 16 2 sys_grown :=
  @Reach.deallocate 16 2 _ 4128 .LAZYPOOL_OK (some 4128) _
    (@Reach.allocate 16 2 _ (some 8192) 8224 .LAZYPOOL_OK _
      (@Reach.allocate 16 2 _ none 4144 .LAZYPOOL_OK _
        (@Reach.allocate 16 2 _ none 4128 .LAZYPOOL_OK _
          (@Reach.create 16 2 4096 pool_16_2 rfl) rfl) rfl) rfl)
    (by decide) rfl

/-- The two blocks of the example state are well placed. -/
theorem blocksOk_sys_grown : BlocksOk sys_grown.made := by
  simp [BlocksOk, sys_grown, Block.bytes]
  decide

/-! ## A fresh pool filled in order -/

/-- The loop of `_init_slots_` writes one entry per iteration. -/
theorem init_loop_length (data s n : Nat) : ∀ k i, (_init_slots_loop data s n k i).length = k := by
  intro k
  induction k with
  | zero => intro i; rfl
  | succ k ih => intro i; simp [_init_slots_loop, ih]

/-- Overwriting the entry right behind `j` equal entries. -/
theorem set_replicate_append {α : Type} (x y e : α) (rest : List α) : ∀ j : Nat,
    (List.replicate j x ++ e :: rest).set j y = List.replicate j x ++ y :: rest := by
  intro j
  induction j with
  | zero => rfl
  | succ j ih => simp [List.replicate_succ, ih]

/-- Reading the entry right behind `j` equal entries. -/
theorem getElem_replicate_append {α : Type} (x e : α) (rest : List α) : ∀ j : Nat,
    (List.replicate j x ++ e :: rest)[j]? = some e := by
  intro j
  induction j with
  | zero => simp
  | succ j ih => simpa [List.replicate_succ] using ih

/-- The chunk that `_create_subpool_` builds has no slot out. -/
theorem create_subpool_fresh (s n b : Nat) (hn : 0 < n) (hb : b ≠ 0) :
    _create_subpool_ s n (some b) = some (chunk_after s n b 0) := by
  simp [_create_subpool_, _init_slots_, chunk_after, hn, hb]

/-- The call `_allocate_from_subpool_` returns the address of the head entry when
the chunk is not full and its free list starts at a metadata entry. -/
theorem alloc_sub_ok {c : LazySubpool} {i : Nat} {cell : LazySlot}
    (hne : c.used_count ≠ c.slot_count) (hi : cell_index c c.free_slots = .ok i)
    (hc : c.cells[i]? = some cell) :
    _allocate_from_subpool_ c
      = .ok (cell.slot, .LAZYPOOL_OK,
          { c with free_slots := cell.next,
                   cells := c.cells.set i { next := 0, slot := 0 },
                   used_count := uadd c.used_count 1 }) := by
  unfold _allocate_from_subpool_
  have hi2 : ∀ nx, cell_index { c with free_slots := nx } c.free_slots = .ok i := by
    intro nx; simpa [cell_index] using hi
  simp [hne, load, store, hi, hi2, hc, bind, Except.bind]

/-- Handing out slot `j` of a chunk whose first `j` slots are out. -/
theorem allocate_from_chunk_after (s n b j : Nat) (hb : 0 < b) (hj : j < n)
    (hfit : b + (SIZEOF_SLOT * n + s * n) < ULONG_MOD) :
    _allocate_from_subpool_ (chunk_after s n b j)
      = .ok (b + SIZEOF_SLOT * n + s * j, .LAZYPOOL_OK, chunk_after s n b (j + 1)) := by
  have hsj : s * j ≤ s * n := Nat.mul_le_mul_left s (by omega)
  have h16 : SIZEOF_SLOT * (j + 1) ≤ SIZEOF_SLOT * n := Nat.mul_le_mul_left _ (by omega)
  have hjM : j + 1 < ULONG_MOD := by
    have : j + 1 ≤ SIZEOF_SLOT * n := by simp only [SIZEOF_SLOT]; omega
    omega
  obtain ⟨k, hk⟩ : ∃ k, n - j = k + 1 := ⟨n - j - 1, by omega⟩
  have hk' : n - (j + 1) = k := by omega
  have hfree : (chunk_after s n b j).free_slots = b + SIZEOF_SLOT * j := by
    simp [chunk_after, hj]
  have hidx : cell_index (chunk_after s n b j) (chunk_after s n b j).free_slots = .ok j := by
    rw [hfree]
    unfold cell_index
    have h0 : ¬ (b + SIZEOF_SLOT * j = 0) := by omega
    have hlen : (chunk_after s n b j).cells.length = n := by
      simp [chunk_after, init_loop_length]; omega
    have hsub : b + SIZEOF_SLOT * j - b = SIZEOF_SLOT * j := by omega
    simp only [h0, ↓reduceIte, hlen]
    have hslots : (chunk_after s n b j).slots = b := rfl
    rw [hslots, hsub]
    have h1 : SIZEOF_SLOT * j % SIZEOF_SLOT = 0 := Nat.mul_mod_right _ _
    have h2 : SIZEOF_SLOT * j / SIZEOF_SLOT = j := Nat.mul_div_cancel_left j (by norm_num)
    simp [h1, h2, hj]
  have e1 : umul SIZEOF_SLOT n = SIZEOF_SLOT * n := umul_small (by omega)
  have e2 : umul s j = s * j := umul_small (by omega)
  have e3 : uadd (SIZEOF_SLOT * n) (s * j) = SIZEOF_SLOT * n + s * j := uadd_small (by omega)
  have e4 : uadd b (SIZEOF_SLOT * n + s * j) = b + (SIZEOF_SLOT * n + s * j) :=
    uadd_small (by omega)
  have e5 : umul SIZEOF_SLOT (j + 1) = SIZEOF_SLOT * (j + 1) := umul_small (by omega)
  have e6 : uadd b (SIZEOF_SLOT * (j + 1)) = b + SIZEOF_SLOT * (j + 1) := uadd_small (by omega)
  have e7 : uadd j 1 = j + 1 := uadd_small hjM
  have hcells : (chunk_after s n b j).cells
      = List.replicate j { next := 0, slot := 0 } ++
          ({ next := if j + 1 < n then b + SIZEOF_SLOT * (j + 1) else 0,
             slot := b + (SIZEOF_SLOT * n + s * j) } : LazySlot)
            :: _init_slots_loop b s n k (j + 1) := by
    simp only [chunk_after, hk, _init_slots_loop, e1, e2, e3, e4, e5, e6]
  have hne : (chunk_after s n b j).used_count ≠ (chunk_after s n b j).slot_count := by
    simp [chunk_after]; omega
  have hget := getElem_replicate_append ({ next := 0, slot := 0 } : LazySlot)
    ({ next := if j + 1 < n then b + SIZEOF_SLOT * (j + 1) else 0,
       slot := b + (SIZEOF_SLOT * n + s * j) } : LazySlot) (_init_slots_loop b s n k (j + 1)) j
  rw [← hcells] at hget
  rw [alloc_sub_ok hne hidx hget, hcells, set_replicate_append]
  simp only [Except.ok.injEq, Prod.mk.injEq, true_and]
  refine ⟨by omega, ?_⟩
  simp [chunk_after, e7, hk', List.replicate_succ']

/-- The pool that `lazypool_create` builds has one chunk with no slot out. -/
theorem create_pool_after (s n b : Nat) (hn : 0 < n) (hb : 0 < b)
    (hfit : SIZEOF_SLOT * n < ULONG_MOD) :
    lazypool_create s n (some b) = (.LAZYPOOL_OK, some (pool_after s n b 0)) := by
  have hn' : n < ULONG_MOD := by
    have : n ≤ SIZEOF_SLOT * n := by simp only [SIZEOF_SLOT]; omega
    omega
  simp [lazypool_create, _add_subpool_, create_subpool_fresh s n b hn (by omega), _create_pool_,
    pool_after, uadd, Nat.mod_eq_of_lt hn']

/-- An allocation from the one-chunk pool while the chunk has a slot left. -/
theorem allocate_pool_after (s n b j : Nat) (mem : Option Nat) (hb : 0 < b) (hj : j < n)
    (hfit : b + (SIZEOF_SLOT * n + s * n) < ULONG_MOD) :
    lazypool_allocate (pool_after s n b j) mem
      = .ok (b + SIZEOF_SLOT * n + s * j, .LAZYPOOL_OK, pool_after s n b (j + 1)) := by
  have hjM : j + 1 < ULONG_MOD := by
    have : j + 1 ≤ SIZEOF_SLOT * n := by simp only [SIZEOF_SLOT]; omega
    omega
  have hne : (pool_after s n b j).used_count ≠ (pool_after s n b j).slot_count := by
    simp [pool_after]; omega
  have hp : ¬ (b + SIZEOF_SLOT * n + s * j = 0) := by omega
  unfold lazypool_allocate
  simp only [hne, ↓reduceIte, bind, Except.bind]
  simp only [pool_after, allocate_from_chunk_after s n b j hb hj hfit, hp, ↓reduceIte,
    uadd_small hjM]

/-- The allocation that grows the one-chunk pool once its chunk is full. -/
theorem allocate_pool_full (s n b1 b2 : Nat) (hn : 0 < n) (hn32 : n < UINT_MOD)
    (hb2 : 0 < b2)
    (hfit2 : b2 + (SIZEOF_SLOT * n + (s % UINT_MOD) * n) < ULONG_MOD) :
    lazypool_allocate (pool_after s n b1 n) (some b2)
      = .ok (b2 + SIZEOF_SLOT * n, .LAZYPOOL_OK, pool_grown s n b1 b2) := by
  have hmod : n % UINT_MOD = n := Nat.mod_eq_of_lt hn32
  have hnn : n + n < ULONG_MOD := by
    have : (UINT_MOD : Nat) + UINT_MOD < ULONG_MOD := by norm_num
    omega
  have hp : ¬ (b2 + SIZEOF_SLOT * n = 0) := by omega
  have ha := allocate_from_chunk_after (s % UINT_MOD) n b2 0 hb2 hn hfit2
  simp only [Nat.mul_zero, Nat.add_zero, Nat.zero_add] at ha
  unfold lazypool_allocate
  simp only [pool_after, ↓reduceIte, bind, Except.bind, chunk_after, _add_subpool_, hmod]
  rw [create_subpool_fresh (s % UINT_MOD) n b2 hn (by omega)]
  simp only [List.head?_cons, ha, hp, ↓reduceIte]
  have hn1 : n + 1 < ULONG_MOD := by omega
  have e1 : (n + n) % ULONG_MOD = n + n := Nat.mod_eq_of_lt hnn
  have e2 : (n + 1) % ULONG_MOD = n + 1 := Nat.mod_eq_of_lt hn1
  have e3 : 2 % ULONG_MOD = 2 := by norm_num
  simp [pool_grown, chunk_after, uadd, two_mul, e1, e2, e3]

/-- A run that starts with an allocation. -/
theorem run_cons_allocate (pool : LazyPool) (mem : Option Nat) (ops : List Op) :
    run pool (Op.allocate mem :: ops)
      = (lazypool_allocate pool mem).bind (fun a =>
          (run a.2.2 ops).bind (fun r => .ok (Obs.allocated a.1 a.2.1 :: r.1, r.2))) := by
  simp only [run, call, bind, Except.bind]
  cases lazypool_allocate pool mem <;> rfl

/-- Allocations from the one-chunk pool up to and including the one that grows it. -/
theorem run_to_growth (s n b1 b2 : Nat) (hn : 0 < n) (hn32 : n < UINT_MOD)
    (hb1 : 0 < b1) (hfit1 : b1 + (SIZEOF_SLOT * n + s * n) < ULONG_MOD)
    (hb2 : 0 < b2) (hfit2 : b2 + (SIZEOF_SLOT * n + (s % UINT_MOD) * n) < ULONG_MOD) :
    ∀ (mems : List (Option Nat)) (j : Nat), j + mems.length = n →
      run (pool_after s n b1 j) (mems.map Op.allocate ++ [Op.allocate (some b2)])
        = .ok ((((List.range' j mems.length).map (fun i => b1 + SIZEOF_SLOT * n + s * i))
                  ++ [b2 + SIZEOF_SLOT * n]).map (fun p => Obs.allocated p .LAZYPOOL_OK),
               pool_grown s n b1 b2) := by
  intro mems
  induction mems with
  | nil =>
    intro j hj
    simp only [List.length_nil, Nat.add_zero] at hj
    subst hj
    rw [List.map_nil, List.nil_append, run_cons_allocate,
      allocate_pool_full s _ b1 b2 hn hn32 hb2 hfit2]
    simp [run, Except.bind]
  | cons m ms ih =>
    intro j hj
    simp only [List.length_cons] at hj
    have hlt : j < n := by omega
    have := ih (j + 1) (by omega)
    rw [List.map_cons, List.cons_append, run_cons_allocate,
      allocate_pool_after s n b1 j m hb1 hlt hfit1]
    simp only [Except.bind, this, List.length_cons, List.range'_succ, List.map_cons,
      List.cons_append]

/-- For a chunk with at least one slot whose payload region does not wrap around
`2 ^ 64`, the range test of the code is the range of the specification. -/
theorem owns_iff_in_range (q : Nat) (c : LazySubpool) (hn : 1 ≤ c.slot_count)
    (hfit : c.slots + SIZEOF_SLOT * c.slot_count + c.slot_size * (c.slot_count - 1)
      < ULONG_MOD) :
    owns q c ↔ in_payload_range q c := by
  rw [owns_iff_plain q c hn hfit]
  unfold in_payload_range
  have e : ((c.slot_count : Int) - 1) = ((c.slot_count - 1 : Nat) : Int) := by omega
  rw [e]
  constructor
  · rintro ⟨h1, h2⟩
    exact ⟨by exact_mod_cast h1, by exact_mod_cast h2⟩
  · rintro ⟨h1, h2⟩
    exact ⟨by exact_mod_cast h1, by exact_mod_cast h2⟩

/-- The call `lazypool_deallocate` on a non-null address returns
`LAZYPOOL_ERR_ILLEGAL_PTR` exactly when the address passes `_is_valid_ptr_` on no
chunk of either chain. -/
theorem deallocate_illegal_iff (pool : LazyPool) (q : Nat) (hq : q ≠ 0) :
    (∃ ref pool1, lazypool_deallocate (some q) pool
          = .ok (.LAZYPOOL_ERR_ILLEGAL_PTR, ref, pool1)) ↔
      ∀ c ∈ pool.used_subpools ++ pool.free_subpools, _is_valid_ptr_ q c = false := by
  constructor
  · rintro ⟨ref, pool1, h⟩
    rcases (deallocate_spec hq h).2 with ⟨_, _, h3⟩ | ⟨h1, _⟩ | ⟨h1, _⟩
    · exact h3
    · cases h1
    · cases h1
  · intro hv
    refine ⟨some q, pool, ?_⟩
    unfold lazypool_deallocate
    simp only [hq, ↓reduceIte]
    have hu := used_loop_illegal q pool pool.used_subpools []
      (fun c hc => hv c (List.mem_append_left _ hc))
    have hf := free_loop_illegal q pool pool.free_subpools []
      (fun c hc => hv c (List.mem_append_right _ hc))
    simp [_deallocate_from_used_subpools, _deallocate_from_free_subpools, hu, hf, bind,
      Except.bind, Code.is_err]

/-! ## The properties of the specification, C1 to C10 -/

/-- C1 (defect in the code).  Ownership round trip on the input named in the claim:
`create(16, 1)`, `p = allocate`, `deallocate(&p)`.  The allocation returns the
payload address 4112 of slot 0; giving it back stops at the bounds assertion of
`_get_slot_`, because `_get_index_from_ptr_` computes index 1 for slot 0. -/
theorem round_trip_create_16_1 :
    (session 16 1 4096 [.allocate none]).map Prod.fst
      = .ok [.allocated 4112 .LAZYPOOL_OK] ∧
    _get_index_from_ptr_ 4112
        { slot_size := 16, slot_count := 1, used_count := 1, slots := 4096, used_slots := 0,
          free_slots := 0, cells := [{ next := 0, slot := 0 }] } = .ok 1 ∧
    session 16 1 4096 [.allocate none, .deallocate 4112] = .error .assertion := by
  decide

/-- C2 (counterexample).  With `create(2 ^ 63, 4)` the payload offsets wrap around
`2 ^ 64`: the first and the third allocation return the same address 4160 while
both are outstanding. -/
theorem same_address_twice :
    (session (2 ^ 63) 4 4096 [.allocate none, .allocate none, .allocate none]).map Prod.fst
      = .ok [.allocated 4160 .LAZYPOOL_OK, .allocated 9223372036854779968 .LAZYPOOL_OK,
             .allocated 4160 .LAZYPOOL_OK] ∧
    ¬ ([4160, 9223372036854779968, 4160] : List Nat).Nodup := by
  decide

/-- C2 (amended).  No double allocation: in every state reached from
`lazypool_create` by calls of `lazypool_allocate` and by calls of
`lazypool_deallocate` on outstanding addresses, the outstanding addresses are
pairwise different, provided every chunk created has a slot size of at least one
byte, its data block `[base, base + 16 * slot_count + slot_size * slot_count)`
ends within the 64-bit address space, and the data blocks are pairwise disjoint. -/
theorem no_double_allocation (s n : Nat) (σ : Sys) (h : Reach s n σ) (hok : BlocksOk σ.made) :
    σ.live.Nodup := by
  rw [List.nodup_iff_count_le_one]
  intro a
  have := ((reach_tally h).2 hok).1 a
  unfold tally at this
  omega

/-- C2, instance: `create(16, 2)`, three allocations with one growth, and the
release of the first address. -/
theorem no_double_allocation_witness :
    Reach 16 2 sys_grown ∧ BlocksOk sys_grown.made ∧ sys_grown.live.Nodup :=
  ⟨reach_sys_grown, blocksOk_sys_grown,
    no_double_allocation 16 2 sys_grown reach_sys_grown blocksOk_sys_grown⟩

/-- C3 (defect in the code).  After `create(16, 2)`, four allocations (one growth)
and the release of one slot of each chunk, an allocation refills the head chunk;
the pool then holds 3 of 4 slots and its head chunk 2 of 2, so the next call gets
`LAZYPOOL_ERR_FULL` and a null address from the head chunk and stops at
`assert(ptr)`, although the other chunk has a free slot and chunk creation would
succeed. -/
theorem allocate_hits_full_head :
    (session 16 2 4096
        [.allocate none, .allocate none, .allocate (some 8192), .allocate none,
         .deallocate 4128, .deallocate 8224, .allocate none]).map
      (fun r => (r.1, r.2.used_count, r.2.slot_count,
        r.2.free_subpools.map (fun c => (c.slots, c.used_count, c.slot_count))))
      = .ok ([.allocated 4128 .LAZYPOOL_OK, .allocated 4144 .LAZYPOOL_OK,
              .allocated 8224 .LAZYPOOL_OK, .allocated 8240 .LAZYPOOL_OK,
              .deallocated .LAZYPOOL_OK (some 4128), .deallocated .LAZYPOOL_OK (some 8224),
              .allocated 4128 .LAZYPOOL_OK], 3, 4,
             [(4096, 2, 2), (8192, 1, 2)]) ∧
    session 16 2 4096
        [.allocate none, .allocate none, .allocate (some 8192), .allocate none,
         .deallocate 4128, .deallocate 8224, .allocate none, .allocate (some 12288)]
      = .error .assertion :=
  ⟨rfl, rfl⟩

/-- C4 (counterexample).  `create(16, 2)`, one allocation, then two calls of
`lazypool_deallocate` on the address 4128 (the second through a stale copy): both
return `LAZYPOOL_OK` and the pool's `used_count` wraps to `2 ^ 64 - 1`, above its
`slot_count` of 2. -/
theorem used_count_underflow :
    (session 16 2 4096 [.allocate none, .deallocate 4128, .deallocate 4128]).map
      (fun r => (r.1, r.2.used_count, r.2.slot_count,
        decide (r.2.used_count ≤ r.2.slot_count)))
      = .ok ([.allocated 4128 .LAZYPOOL_OK, .deallocated .LAZYPOOL_OK (some 4128),
              .deallocated .LAZYPOOL_OK (some 4128)], 2 ^ 64 - 1, 2, false) := by
  decide

/-- C4 (amended).  Capacity conservation: in every state reached from
`lazypool_create` by calls of `lazypool_allocate` and by calls of
`lazypool_deallocate` on outstanding addresses, the pool's `used_count` is at most
its `slot_count`, as long as the chunks created hold fewer than `2 ^ 64` slots
in total. -/
theorem used_le_slots (s n : Nat) (σ : Sys) (h : Reach s n σ)
    (hsum : slots_made σ.made < ULONG_MOD) :
    σ.pool.used_count ≤ σ.pool.slot_count :=
  ((reach_counters h).2 hsum).2.2

/-- C4, instance: `create(16, 2)`, three allocations with one growth, and the
release of the first address. -/
theorem used_le_slots_witness :
    Reach 16 2 sys_grown ∧ slots_made sys_grown.made < ULONG_MOD ∧
      sys_grown.pool.used_count ≤ sys_grown.pool.slot_count :=
  ⟨reach_sys_grown, by decide,
    used_le_slots 16 2 sys_grown reach_sys_grown (by decide)⟩

/-- C5.  Accessor identity: on every pool whose available chain is non-empty the
three accessors return `(slot_count - used_count) * slot_size`,
`used_count * slot_size` and `slot_count * slot_size` of the pool's counters, with
the slot size of the head chunk and in arithmetic modulo `2 ^ 64`, and
`available_bytes + used_bytes == total_bytes` modulo `2 ^ 64`.  The accessors
take the pool and return a number only: they write nothing. -/
theorem accessor_identity (pool : LazyPool) (h : pool.free_subpools ≠ []) :
    ∃ head rest, pool.free_subpools = head :: rest ∧
      lazypool_available_bytes pool
        = .ok (umul (usub pool.slot_count pool.used_count) head.slot_size) ∧
      lazypool_used_bytes pool = .ok (umul pool.used_count head.slot_size) ∧
      lazypool_total_bytes pool = .ok (umul pool.slot_count head.slot_size) ∧
      uadd (umul (usub pool.slot_count pool.used_count) head.slot_size)
          (umul pool.used_count head.slot_size)
        = umul pool.slot_count head.slot_size := by
  cases hf : pool.free_subpools with
  | nil => exact absurd hf h
  | cons head rest =>
    refine ⟨head, rest, rfl, ?_, ?_, ?_, accessor_sum _ _ _⟩ <;>
      simp [lazypool_available_bytes, lazypool_used_bytes, lazypool_total_bytes,
        head_slot_size, hf] <;> rfl

/-- C5, instance: the pool of `lazypool_create(16, 2, ..)`. -/
theorem accessor_identity_witness :
    lazypool_create 16 2 (some 4096) = (.LAZYPOOL_OK, some pool_16_2) ∧
    pool_16_2.free_subpools ≠ [] ∧
    ∃ head rest, pool_16_2.free_subpools = head :: rest ∧
      lazypool_available_bytes pool_16_2
        = .ok (umul (usub pool_16_2.slot_count pool_16_2.used_count) head.slot_size) ∧
      lazypool_used_bytes pool_16_2 = .ok (umul pool_16_2.used_count head.slot_size) ∧
      lazypool_total_bytes pool_16_2 = .ok (umul pool_16_2.slot_count head.slot_size) ∧
      uadd (umul (usub pool_16_2.slot_count pool_16_2.used_count) head.slot_size)
          (umul pool_16_2.used_count head.slot_size)
        = umul pool_16_2.slot_count head.slot_size :=
  ⟨by decide, by decide, accessor_identity pool_16_2 (by decide)⟩

/-- C6 (counterexample).  With `slot_size = 2 ^ 63` and `slot_count = 4` the five
allocations succeed and the pool grows to two chunks, and the five addresses are
not pairwise distinct: 4160 is returned twice, 4160 + 2 ^ 63 twice. -/
theorem growth_addresses_collide :
    (session (2 ^ 63) 4 4096
        [.allocate none, .allocate none, .allocate none, .allocate none,
         .allocate (some 8192)]).map
      (fun r => (r.1, r.2.subpool_count, r.2.slot_count))
      = .ok ([.allocated 4160 .LAZYPOOL_OK, .allocated 9223372036854779968 .LAZYPOOL_OK,
              .allocated 4160 .LAZYPOOL_OK, .allocated 9223372036854779968 .LAZYPOOL_OK,
              .allocated 8256 .LAZYPOOL_OK], 2, 8) ∧
    ¬ ([4160, 9223372036854779968, 4160, 9223372036854779968, 8256] : List Nat).Nodup ∧
    (1 : Nat) ≤ 2 ^ 63 ∧ (1 : Nat) ≤ 4 ∧ (4 : Nat) < 2 ^ 32 := by
  decide

/-- C6 (amended).  Growth: for `slot_size >= 1` and `1 <= slot_count = n < 2 ^ 32`,
when the two data blocks that `malloc` returns (the first at creation, the second
at growth, which has the slot size reduced modulo `2 ^ 32`) are non-null, end
below `2 ^ 64` and are disjoint, `n + 1` allocations on the fresh pool all return
`LAZYPOOL_OK`, the `n + 1` addresses are non-null and pairwise different, and
the pool ends with `subpool_count == 2` and `slot_count == 2 * n`. -/
theorem growth_correctness (s n b1 b2 : Nat) (mems : List (Option Nat))
    (hs : 1 ≤ s) (hn : 1 ≤ n) (hn32 : n < UINT_MOD) (hm : mems.length = n)
    (hb1 : 0 < b1) (hfit1 : b1 + (SIZEOF_SLOT * n + s * n) < ULONG_MOD)
    (hb2 : 0 < b2) (hfit2 : b2 + (SIZEOF_SLOT * n + (s % UINT_MOD) * n) < ULONG_MOD)
    (hdis : b1 + (SIZEOF_SLOT * n + s * n) ≤ b2 ∨
      b2 + (SIZEOF_SLOT * n + (s % UINT_MOD) * n) ≤ b1) :
    ∃ (ptrs : List Nat) (pool : LazyPool),
      session s n b1 (mems.map Op.allocate ++ [Op.allocate (some b2)])
        = .ok (ptrs.map (fun p => Obs.allocated p .LAZYPOOL_OK), pool) ∧
      ptrs.length = n + 1 ∧ (∀ p ∈ ptrs, p ≠ 0) ∧ ptrs.Nodup ∧
      pool.subpool_count = 2 ∧ pool.slot_count = 2 * n := by
  have hrun := run_to_growth s n b1 b2 hn hn32 hb1 hfit1 hb2 hfit2 mems 0 (by omega)
  have hcr := create_pool_after s n b1 hn hb1 (by omega)
  have hn16 : 0 < SIZEOF_SLOT * n := by simp only [SIZEOF_SLOT]; omega
  refine ⟨(List.range' 0 mems.length).map (fun i => b1 + SIZEOF_SLOT * n + s * i)
      ++ [b2 + SIZEOF_SLOT * n], pool_grown s n b1 b2, ?_, ?_, ?_, ?_, rfl, rfl⟩
  · simp only [session, hcr, hrun]
  · simp [hm]
  · intro p hp
    rcases List.mem_append.1 hp with hp | hp
    · obtain ⟨i, _, rfl⟩ := List.mem_map.1 hp
      omega
    · simp at hp
      omega
  · rw [List.nodup_append]
    refine ⟨?_, by simp, ?_⟩
    · refine List.Nodup.map ?_ (List.nodup_range' _ _)
      intro i j hij
      simp only at hij
      have : s * i = s * j := by omega
      exact Nat.eq_of_mul_eq_mul_left (by omega) this
    · intro a ha hb
      obtain ⟨i, hi, rfl⟩ := List.mem_map.1 ha
      simp only [List.mem_singleton] at hb
      have hin : i < n := by
        have := (List.mem_range'_1.1 hi).2
        omega
      have hlt : s * i < s * n := Nat.mul_lt_mul_of_pos_left hin (by omega)
      rcases hdis with h | h <;> omega

/-- C6, instance: the case of the specification, `slot_count = 4` with slots of 16
bytes, data blocks at 4096 and 8192. -/
theorem growth_correctness_witness :
    ((1 : Nat) ≤ 16 ∧ (1 : Nat) ≤ 4 ∧ 4 < UINT_MOD ∧
      ([none, none, none, none] : List (Option Nat)).length = 4 ∧
      (0 : Nat) < 4096 ∧ 4096 + (SIZEOF_SLOT * 4 + 16 * 4) < ULONG_MOD ∧
      (0 : Nat) < 8192 ∧ 8192 + (SIZEOF_SLOT * 4 + (16 % UINT_MOD) * 4) < ULONG_MOD ∧
      (4096 + (SIZEOF_SLOT * 4 + 16 * 4) ≤ 8192 ∨
        8192 + (SIZEOF_SLOT * 4 + (16 % UINT_MOD) * 4) ≤ 4096)) ∧
    ∃ (ptrs : List Nat) (pool : LazyPool),
      session 16 4 4096 ([none, none, none, none].map Op.allocate ++ [Op.allocate (some 8192)])
        = .ok (ptrs.map (fun p => Obs.allocated p .LAZYPOOL_OK), pool) ∧
      ptrs.length = 4 + 1 ∧ (∀ p ∈ ptrs, p ≠ 0) ∧ ptrs.Nodup ∧
      pool.subpool_count = 2 ∧ pool.slot_count = 2 * 4 :=
  ⟨by decide,
    growth_correctness 16 4 4096 8192 [none, none, none, none] (by decide) (by decide)
      (by decide) rfl (by decide) (by decide) (by decide) (by decide) (by decide)⟩

/-- C7 (counterexample).  The range test of the code is not the range of the
specification when a bound wraps.  On the pool of `lazypool_create(2 ^ 63, 4, ..)`
with its data block at 4096 the range of the one chunk is
`[4160, 4160 + 3 * 2 ^ 63]` and holds `2 ^ 63 + 5000`, but the code's upper
bound is `2 ^ 63 + 4160` and `lazypool_deallocate` returns
`LAZYPOOL_ERR_ILLEGAL_PTR`.  On the pool of `lazypool_create(2 ^ 20, 0, ..)` the
range of the one chunk, which has no slot, is empty, but the code's upper bound
is `2 ^ 64 - 2 ^ 20 + 4096`: the address 5000 passes the test and the call stops
at the assertion of `_get_slot_` and does not return `LAZYPOOL_ERR_ILLEGAL_PTR`. -/
theorem range_test_wraps :
    (∃ pool, lazypool_create (2 ^ 63) 4 (some 4096) = (.LAZYPOOL_OK, some pool) ∧
      (pool.used_subpools ++ pool.free_subpools).map
          (fun c => (c.slots, c.slot_size, c.slot_count, payload_start c, payload_last c,
            decide (in_payload_range (2 ^ 63 + 5000) c)))
        = [(4096, 2 ^ 63, 4, 4160, 2 ^ 63 + 4160, true)] ∧
      lazypool_deallocate (some (2 ^ 63 + 5000)) pool
        = .ok (.LAZYPOOL_ERR_ILLEGAL_PTR, some (2 ^ 63 + 5000), pool)) ∧
    (∃ pool, lazypool_create (2 ^ 20) 0 (some 4096) = (.LAZYPOOL_OK, some pool) ∧
      (pool.used_subpools ++ pool.free_subpools).map
          (fun c => (c.slots, c.slot_size, c.slot_count, payload_start c, payload_last c,
            decide (in_payload_range 5000 c)))
        = [(4096, 2 ^ 20, 0, 4096, 2 ^ 64 - 2 ^ 20 + 4096, false)] ∧
      lazypool_deallocate (some 5000) pool = .error .assertion) :=
  ⟨⟨_, rfl, by decide, rfl⟩, ⟨_, rfl, by decide, rfl⟩⟩

/-- C7 (amended).  Illegal pointer rejection: for every pool and every non-null
address `q`: when every chunk of both chains has at least one slot and a payload
range that ends below `2 ^ 64`, `lazypool_deallocate(&q, pool)` returns
`LAZYPOOL_ERR_ILLEGAL_PTR` exactly when `q` lies in the inclusive range
`[payload_start, payload_start + slot_size * (slot_count - 1)]` of no chunk of the
exhausted chain and of no chunk of the available chain; whenever it returns that
code the pool (counters, both chains, every chunk) is the one given; and on every
pool it returns that code exactly when no chunk passes the range test with the
bounds reduced modulo `2 ^ 64`, as `_is_valid_ptr_` computes them. -/
theorem illegal_pointer_rejection (pool : LazyPool) (q : Nat) (hq : q ≠ 0) :
    ((∀ c ∈ pool.used_subpools ++ pool.free_subpools, 1 ≤ c.slot_count ∧
        c.slots + SIZEOF_SLOT * c.slot_count + c.slot_size * (c.slot_count - 1) < ULONG_MOD) →
      ((∃ ref pool1, lazypool_deallocate (some q) pool
            = .ok (.LAZYPOOL_ERR_ILLEGAL_PTR, ref, pool1)) ↔
        ∀ c ∈ pool.used_subpools ++ pool.free_subpools, ¬ in_payload_range q c)) ∧
    (∀ ref pool1, lazypool_deallocate (some q) pool
          = .ok (.LAZYPOOL_ERR_ILLEGAL_PTR, ref, pool1) → pool1 = pool) ∧
    ((∃ ref pool1, lazypool_deallocate (some q) pool
          = .ok (.LAZYPOOL_ERR_ILLEGAL_PTR, ref, pool1)) ↔
      ∀ c ∈ pool.used_subpools ++ pool.free_subpools, ¬ owns q c) := by
  have hv : ∀ c, _is_valid_ptr_ q c = false ↔ ¬ owns q c := by
    intro c
    rw [← is_valid_iff_owns q c]
    cases _is_valid_ptr_ q c <;> simp
  refine ⟨fun hfit => ?_, ?_, ?_⟩
  · rw [deallocate_illegal_iff pool q hq]
    constructor
    · intro h c hc hin
      exact (hv c).1 (h c hc) ((owns_iff_in_range q c (hfit c hc).1 (hfit c hc).2).2 hin)
    · intro h c hc
      exact (hv c).2 (fun ho => h c hc ((owns_iff_in_range q c (hfit c hc).1 (hfit c hc).2).1 ho))
  · intro ref pool1 h
    rcases (deallocate_spec hq h).2 with ⟨_, h2, _⟩ | ⟨h1, _⟩ | ⟨h1, _⟩
    · exact h2
    · cases h1
    · cases h1
  · rw [deallocate_illegal_iff pool q hq]
    exact ⟨fun h c hc => (hv c).1 (h c hc), fun h c hc => (hv c).2 (h c hc)⟩

/-- C7, instance: the address 5000 on the pool of `lazypool_create(16, 2, ..)` grown
by a second chunk.  The chunk at 4096 is in the exhausted chain, the chunk at
8192 in the available chain, both have two slots and ranges below `2 ^ 64`, 5000
lies in neither range, and the call returns `LAZYPOOL_ERR_ILLEGAL_PTR` with the
pool as it was. -/
theorem illegal_pointer_rejection_witness :
    (5000 : Nat) ≠ 0 ∧
    (∀ c ∈ sys_grown.pool.used_subpools ++ sys_grown.pool.free_subpools, 1 ≤ c.slot_count ∧
        c.slots + SIZEOF_SLOT * c.slot_count + c.slot_size * (c.slot_count - 1) < ULONG_MOD) ∧
    ((∃ ref pool1, lazypool_deallocate (some 5000) sys_grown.pool
          = .ok (.LAZYPOOL_ERR_ILLEGAL_PTR, ref, pool1)) ↔
      ∀ c ∈ sys_grown.pool.used_subpools ++ sys_grown.pool.free_subpools,
        ¬ in_payload_range 5000 c) ∧
    (∀ c ∈ sys_grown.pool.used_subpools ++ sys_grown.pool.free_subpools,
        ¬ in_payload_range 5000 c) ∧
    lazypool_deallocate (some 5000) sys_grown.pool
      = .ok (.LAZYPOOL_ERR_ILLEGAL_PTR, some 5000, sys_grown.pool) :=
  ⟨by decide, by decide,
    (illegal_pointer_rejection sys_grown.pool 5000 (by decide)).1 (by decide),
    by decide, rfl⟩

/-- C8 (defect in the code).  `create(16, 2)`, `p = allocate`, `deallocate(&p)`: the
call returns `LAZYPOOL_OK` and `*ptr` still holds 4128 afterwards; no path of
`lazypool_deallocate` writes through `ptr`. -/
theorem reference_not_cleared :
    (session 16 2 4096 [.allocate none, .deallocate 4128]).map Prod.fst
      = .ok [.allocated 4128 .LAZYPOOL_OK, .deallocated .LAZYPOOL_OK (some 4128)] := by
  decide

/-- C9.  Null deallocation is a no-op success: with `ptr == NULL` and with
`*ptr == NULL` the call returns `LAZYPOOL_OK` and the pool is the one given,
whatever its state. -/
theorem null_deallocate_noop (pool : LazyPool) :
    lazypool_deallocate none pool = .ok (.LAZYPOOL_OK, none, pool) ∧
    lazypool_deallocate (some 0) pool = .ok (.LAZYPOOL_OK, some 0, pool) :=
  ⟨rfl, rfl⟩

/-- C10 (defect in the code).  Two reachable states on which `lazypool_deallocate_all`
does not reset the pool.  First: after a growth that cut a chunk with two
outstanding slots off the available chain, the reset leaves `used_count` at 2.
Second: after `lazypool_free_unused` emptied the available chain, the reset drops
the exhausted chain, the pool keeps no chunk and `lazypool_total_bytes` reads
through a null head. -/
theorem deallocate_all_misses_chunks :
    (session 16 2 4096
        [.allocate none, .allocate none, .allocate (some 8192), .allocate none,
         .deallocate 4128, .allocate none, .allocate (some 12288), .deallocate_all]).map
      (fun r => (r.2.used_count, r.2.subpool_count, r.2.free_subpools.map (fun c => c.slots),
        r.2.used_subpools.map (fun c => c.slots)))
      = .ok (2, 3, [12288, 4096], []) ∧
    (session 16 2 4096
        [.allocate none, .allocate none, .allocate (some 8192), .deallocate 8224,
         .free_unused]).map
      (fun r => (r.2.used_subpools.map (fun c => c.slots), r.2.free_subpools,
        r.2.subpool_count))
      = .ok ([4096], [], 1) ∧
    (session 16 2 4096
        [.allocate none, .allocate none, .allocate (some 8192), .deallocate 8224,
         .free_unused, .deallocate_all]).map
      (fun r => (r.2.used_subpools, r.2.free_subpools, r.2.subpool_count, r.2.used_count))
      = .ok ([], [], 1, 0) ∧
    lazypool_total_bytes
        { slot_count := 2, used_count := 0, subpool_count := 1, used_subpools := [],
          free_subpools := [] } = .error .null_deref := by
  decide

/-! ## More on what the calls do -/

/-- With `subpool_count == 1` the call `lazypool_free_unused` returns 0 and leaves the
pool as it is, whatever the chunk holds. -/
theorem free_unused_single (pool : LazyPool) (h : pool.subpool_count = 1) :
    lazypool_free_unused pool = .ok (0, pool) := by
  simp [lazypool_free_unused, h]

/-- The index that `_get_index_from_ptr_` computes for the payload address of slot
`i`, when the chunk does not wrap around the address space:
`1 + slot_size * i / 16`, which is never the index 0 of the first slot. -/
theorem index_of_payload (c : LazySubpool) (i : Nat) (hn : 1 ≤ c.slot_count)
    (hfit : c.slots + (SIZEOF_SLOT * c.slot_count + c.slot_size * i) < ULONG_MOD)
    (hsmall : SIZEOF_SLOT + c.slot_size * i < 2 ^ 63) :
    _get_index_from_ptr_ (c.slots + SIZEOF_SLOT * c.slot_count + c.slot_size * i) c
      = .ok (1 + c.slot_size * i / SIZEOF_SLOT) := by
  have hnM : c.slot_count < ULONG_MOD := by
    have : c.slot_count ≤ SIZEOF_SLOT * c.slot_count := by simp only [SIZEOF_SLOT]; omega
    omega
  have e0 : usub c.slot_count 1 = c.slot_count - 1 := usub_small hnM hn
  have h16 : SIZEOF_SLOT * (c.slot_count - 1) + 16 = SIZEOF_SLOT * c.slot_count := by
    simp only [SIZEOF_SLOT]; omega
  have e1 : umul SIZEOF_SLOT (c.slot_count - 1) = SIZEOF_SLOT * (c.slot_count - 1) :=
    umul_small (by omega)
  have e2 : uadd c.slots (SIZEOF_SLOT * (c.slot_count - 1))
      = c.slots + SIZEOF_SLOT * (c.slot_count - 1) := uadd_small (by omega)
  have e3 : usub (c.slots + SIZEOF_SLOT * c.slot_count + c.slot_size * i)
      (c.slots + SIZEOF_SLOT * (c.slot_count - 1))
      = (c.slots + SIZEOF_SLOT * c.slot_count + c.slot_size * i)
        - (c.slots + SIZEOF_SLOT * (c.slot_count - 1)) := usub_small (by omega) (by omega)
  have e4 : (c.slots + SIZEOF_SLOT * c.slot_count + c.slot_size * i)
        - (c.slots + SIZEOF_SLOT * (c.slot_count - 1)) = 16 + c.slot_size * i := by omega
  have hlt : c.slot_count - 1 < c.slot_count := by omega
  have hd : 16 + c.slot_size * i < 2 ^ 63 := hsmall
  have hdiv : (16 + c.slot_size * i) / SIZEOF_SLOT = 1 + c.slot_size * i / SIZEOF_SLOT := by
    simp only [SIZEOF_SLOT]; omega
  simp only [_get_index_from_ptr_, _get_slot_, e0, hlt, ↓reduceIte, e1, e2, bind, Except.bind,
    ptr_diff, e3, e4, hd, hdiv]

/-- The first chunk of a chain that passes the range test is found in one way only. -/
theorem first_valid_unique (q : Nat) :
    ∀ (pre pre1 : List LazySubpool) (c c1 : LazySubpool) (next next1 : List LazySubpool),
      pre ++ c :: next = pre1 ++ c1 :: next1 →
      (∀ x ∈ pre, _is_valid_ptr_ q x = false) → _is_valid_ptr_ q c = true →
      (∀ x ∈ pre1, _is_valid_ptr_ q x = false) → _is_valid_ptr_ q c1 = true →
      pre = pre1 ∧ c = c1 ∧ next = next1 := by
  intro pre
  induction pre with
  | nil =>
    intro pre1 c c1 next next1 h _ hc h1 _
    cases pre1 with
    | nil =>
      simp at h
      exact ⟨rfl, h.1, h.2⟩
    | cons y ys =>
      simp at h
      have := h1 y (List.mem_cons_self _ _)
      rw [← h.1, hc] at this
      cases this
  | cons x xs ih =>
    intro pre1 c c1 next next1 h hp hc h1 hc1
    cases pre1 with
    | nil =>
      simp at h
      have := hp x (List.mem_cons_self _ _)
      rw [h.1, hc1] at this
      cases this
    | cons y ys =>
      simp at h
      obtain ⟨hxy, hrest⟩ := h
      obtain ⟨e1, e2, e3⟩ := ih ys c c1 next next1 hrest
        (fun z hz => hp z (List.mem_cons_of_mem _ hz)) hc
        (fun z hz => h1 z (List.mem_cons_of_mem _ hz)) hc1
      exact ⟨by rw [hxy, e1], e2, e3⟩

/-- Without wrap-around the address of entry `i` is `base + 16 * n + slot_size * i`. -/
theorem payload_addr_plain (s n b i : Nat) (h : b + (SIZEOF_SLOT * n + s * i) < ULONG_MOD) :
    payload_addr s n b i = b + SIZEOF_SLOT * n + s * i := by
  have e1 : umul SIZEOF_SLOT n = SIZEOF_SLOT * n := umul_small (by omega)
  have e2 : umul s i = s * i := umul_small (by omega)
  have e3 : uadd (SIZEOF_SLOT * n) (s * i) = SIZEOF_SLOT * n + s * i := uadd_small (by omega)
  have e4 : uadd b (SIZEOF_SLOT * n + s * i) = b + (SIZEOF_SLOT * n + s * i) := uadd_small h
  simp only [payload_addr, e1, e2, e3, e4]
  omega

/-- A run that starts with one call. -/
theorem run_cons (pool : LazyPool) (op : Op) (ops : List Op) :
    run pool (op :: ops)
      = (call pool op).bind (fun a =>
          (run a.2 ops).bind (fun r => .ok (a.1 :: r.1, r.2))) := by
  simp only [run, bind, Except.bind]

/-- A run of two sequences of calls, one after the other. -/
theorem run_append (ys : List Op) : ∀ (xs : List Op) (pool : LazyPool),
    run pool (xs ++ ys)
      = (run pool xs).bind (fun r =>
          (run r.2 ys).bind (fun r2 => .ok (r.1 ++ r2.1, r2.2))) := by
  intro xs
  induction xs with
  | nil =>
    intro pool
    simp only [List.nil_append, run, Except.bind]
    cases run pool ys <;> rfl
  | cons x xs ih =>
    intro pool
    rw [List.cons_append, run_cons, run_cons]
    cases call pool x with
    | error e => rfl
    | ok a =>
      simp only [Except.bind, ih a.2]
      cases run a.2 xs with
      | error e => rfl
      | ok r1 =>
        simp only []
        cases run r1.2 ys <;> rfl

/-- The reset of a chunk whose first `j` slots are out: the count that is returned,
after its trip through `int`, and the chunk with no slot out. -/
theorem deallocate_all_chunk_after (s n b j : Nat) (hn : 0 < n) :
    _deallocate_all_from_subpool_ (chunk_after s n b j)
      = (int_round_trip j, chunk_after s n b 0) := by
  simp [_deallocate_all_from_subpool_, _init_slots_, chunk_after, hn]

/-- An allocation on a pool whose counters say full: a chunk with the parameters of
the head chunk, reduced modulo `2 ^ 32`, is created, the head chunk goes to the
exhausted chain, whatever it holds, and the chunks behind it are cut off. -/
theorem allocate_grows (pool : LazyPool) (head : LazySubpool) (tail : List LazySubpool)
    (n b : Nat) (hfull : pool.used_count = pool.slot_count)
    (hfree : pool.free_subpools = head :: tail)
    (hcount : head.slot_count % UINT_MOD = n) (hn : 0 < n) (hb : 0 < b)
    (hfit : b + (SIZEOF_SLOT * n + (head.slot_size % UINT_MOD) * n) < ULONG_MOD) :
    lazypool_allocate pool (some b)
      = .ok (b + SIZEOF_SLOT * n, .LAZYPOOL_OK,
          { slot_count := uadd pool.slot_count n,
            used_count := uadd pool.used_count 1,
            subpool_count := uadd pool.subpool_count 1,
            used_subpools := head :: pool.used_subpools,
            free_subpools := [chunk_after (head.slot_size % UINT_MOD) n b 1] }) := by
  have hp : ¬ (b + SIZEOF_SLOT * n = 0) := by omega
  have ha := allocate_from_chunk_after (head.slot_size % UINT_MOD) n b 0 hb hn hfit
  simp only [Nat.mul_zero, Nat.add_zero, Nat.zero_add] at ha
  unfold lazypool_allocate
  simp only [hfull, ↓reduceIte, bind, Except.bind, hfree, _add_subpool_, hcount]
  rw [create_subpool_fresh (head.slot_size % UINT_MOD) n b hn (by omega)]
  simp only [List.head?_cons, ha, hp, ↓reduceIte, hfull]

/-- The pool grown once and then reset by `lazypool_deallocate_all`. -/
theorem deallocate_all_pool_grown (s n b1 b2 : Nat) (hn : 0 < n) :
    lazypool_deallocate_all (pool_grown s n b1 b2)
      = { slot_count := 2 * n,
          used_count := usub (usub (n + 1) (int_round_trip 1)) (int_round_trip n),
          subpool_count := 2, used_subpools := [],
          free_subpools := [chunk_after (s % UINT_MOD) n b2 0, chunk_after s n b1 0] } := by
  simp [lazypool_deallocate_all, pool_grown, deallocate_all_loop, deallocate_all_rest,
    deallocate_all_chunk_after _ n _ _ hn]

/-- Growth, reset and one more allocation: when the count of the full chunk does not
survive its trip through `int`, the pool's `used_count` comes out of the reset
equal to `slot_count`, and the next allocation grows the pool and moves an empty
chunk to the exhausted chain. -/
theorem reset_then_growth (s n b1 b2 b3 : Nat) (mems : List (Option Nat))
    (hn : 0 < n) (hn32 : n < UINT_MOD) (hm : mems.length = n)
    (hb1 : 0 < b1) (hfit1 : b1 + (SIZEOF_SLOT * n + s * n) < ULONG_MOD)
    (hb2 : 0 < b2) (hfit2 : b2 + (SIZEOF_SLOT * n + (s % UINT_MOD) * n) < ULONG_MOD)
    (hb3 : 0 < b3) (hfit3 : b3 + (SIZEOF_SLOT * n + (s % UINT_MOD) * n) < ULONG_MOD)
    (hwrap : usub (usub (n + 1) (int_round_trip 1)) (int_round_trip n) = 2 * n) :
    (session s n b1
        ((mems.map Op.allocate ++ [Op.allocate (some b2)])
          ++ [Op.deallocate_all, Op.allocate (some b3)])).map
      (fun r => (r.2.used_count, r.2.slot_count,
        r.2.used_subpools.map (fun c => (c.slots, c.used_count, c.slot_count))))
      = .ok (uadd (2 * n) 1, uadd (2 * n) n, [(b2, 0, n)]) := by
  have hrun := run_to_growth s n b1 b2 hn hn32 hb1 hfit1 hb2 hfit2 mems 0 (by omega)
  have hcr := create_pool_after s n b1 hn hb1 (by omega)
  have hreset := deallocate_all_pool_grown s n b1 b2 hn
  rw [hwrap] at hreset
  have hmod : (s % UINT_MOD) % UINT_MOD = s % UINT_MOD := Nat.mod_mod _ _
  have hgrow := allocate_grows
    { slot_count := 2 * n, used_count := 2 * n, subpool_count := 2, used_subpools := [],
      free_subpools := [chunk_after (s % UINT_MOD) n b2 0, chunk_after s n b1 0] }
    (chunk_after (s % UINT_MOD) n b2 0) [chunk_after s n b1 0] n b3 rfl rfl
    (Nat.mod_eq_of_lt hn32) hn hb3 (by simpa [chunk_after, hmod] using hfit3)
  simp only [session, hcr, run_append, hrun, Except.bind, run, call, hreset, hgrow, bind,
    Except.map]
  simp [chunk_after]

/-! ## The properties of the specification, C11 to C20 -/

/-- C11 (defect in the code).  `create(8, 2)`, three allocations (one growth) and the
release of the three addresses leave two empty chunks in the available chain and
`subpool_count == 2`.  `lazypool_free_unused` then destroys both: the counter
goes from 2 to 0, and the unlinking of the second chunk writes into the first
one, already freed. -/
theorem free_unused_no_floor :
    (session 8 2 4096
        [.allocate none, .allocate none, .allocate (some 8192), .deallocate 4128,
         .deallocate 4136, .deallocate 8224]).map
      (fun r => (r.1, r.2.subpool_count, r.2.used_subpools,
        r.2.free_subpools.map (fun c => (c.slots, c.used_count)),
        free_unused_counts none r.2.free_subpools (0, r.2.subpool_count, r.2.slot_count)))
      = .ok ([.allocated 4128 .LAZYPOOL_OK, .allocated 4136 .LAZYPOOL_OK,
              .allocated 8224 .LAZYPOOL_OK, .deallocated .LAZYPOOL_OK (some 4128),
              .deallocated .LAZYPOOL_OK (some 4136), .deallocated .LAZYPOOL_OK (some 8224)],
             2, [], [(4096, 0), (8192, 0)], (4, 0, 0)) ∧
    session 8 2 4096
        [.allocate none, .allocate none, .allocate (some 8192), .deallocate 4128,
         .deallocate 4136, .deallocate 8224, .free_unused]
      = .error .use_after_free :=
  ⟨rfl, rfl⟩

/-- C12 (defect in the code).  The scenario of the specification on `create(16, 2)`:
the steps up to the first `free_unused` behave as written (`used_bytes` 32 after
two allocations; `subpool_count` 2 and `total_bytes` 64 after the third;
`used_bytes` 32 after the release of `p1`; `free_unused` returns 0).  The release
of `p2 = 4144`, the last slot of the first chunk, then stops at the bounds
assertion of `_get_slot_`. -/
theorem scenario_stops_at_p2 :
    (session 16 2 4096 [.allocate none, .allocate none]).bind
        (fun r => lazypool_used_bytes r.2) = .ok 32 ∧
    (session 16 2 4096 [.allocate none, .allocate none, .allocate (some 8192)]).bind
        (fun r => (lazypool_total_bytes r.2).map (fun t => (r.1, r.2.subpool_count, t)))
      = .ok ([.allocated 4128 .LAZYPOOL_OK, .allocated 4144 .LAZYPOOL_OK,
              .allocated 8224 .LAZYPOOL_OK], 2, 64) ∧
    (session 16 2 4096
        [.allocate none, .allocate none, .allocate (some 8192), .deallocate 4128]).bind
        (fun r => (lazypool_used_bytes r.2).map (fun u => (r.1.getLast?, u)))
      = .ok (some (.deallocated .LAZYPOOL_OK (some 4128)), 32) ∧
    (session 16 2 4096
        [.allocate none, .allocate none, .allocate (some 8192), .deallocate 4128,
         .free_unused]).map (fun r => r.1.getLast?)
      = .ok (some (.freed 0)) ∧
    session 16 2 4096
        [.allocate none, .allocate none, .allocate (some 8192), .deallocate 4128,
         .free_unused, .deallocate 4144]
      = .error .assertion :=
  ⟨rfl, rfl, rfl, rfl, rfl⟩

/-- C13 (defect in the code).  `create(16, 2)`, four allocations (one growth), the
release of 4128, an allocation and a second growth: the second growth finds two
chunks in the available chain and cuts the one at 8192 off.  The pool then
counts 6 slots, 5 of them used, in 3 chunks, while its two chains hold 2 chunks
with 4 slots, 3 of them used. -/
theorem totals_count_lost_chunk :
    (session 16 2 4096
        [.allocate none, .allocate none, .allocate (some 8192), .allocate none,
         .deallocate 4128, .allocate none, .allocate (some 12288)]).map
      (fun r =>
        ((r.2.used_subpools ++ r.2.free_subpools).map (fun c => c.slots),
         r.2.slot_count,
         ((r.2.used_subpools ++ r.2.free_subpools).map (fun c => c.slot_count)).sum,
         r.2.used_count,
         ((r.2.used_subpools ++ r.2.free_subpools).map (fun c => c.used_count)).sum,
         r.2.subpool_count,
         (r.2.used_subpools ++ r.2.free_subpools).length))
      = .ok ([4096, 12288], 6, 4, 5, 3, 3, 2) :=
  rfl

/-- C14 (defect in the code).  `create(8, 2)`, five allocations (two growths) and four
releases leave the available chain as: chunk 8192 with one slot in use, chunk
4096 empty, chunk 12288 empty, with `subpool_count == 3`.  `lazypool_free_unused`
destroys the chunk at 4096, keeps it in `before`, and on the chunk at 12288
writes `before->next` into the freed chunk; the surviving chunk at 8192 keeps
its link to the chunk at 12288, which is destroyed.  At that point 4 slots are
counted as reclaimed. -/
theorem free_unused_writes_freed_chunk :
    (session 8 2 4096
        [.allocate none, .allocate none, .allocate (some 8192), .allocate none,
         .allocate (some 12288), .deallocate 4128, .deallocate 8224, .deallocate 4136,
         .deallocate 12320]).map
      (fun r => (r.2.subpool_count, r.2.slot_count, r.2.used_subpools,
        r.2.free_subpools.map (fun c => (c.slots, c.used_count)),
        free_unused_counts none r.2.free_subpools (0, r.2.subpool_count, r.2.slot_count)))
      = .ok (3, 6, [], [(8192, 1), (4096, 0), (12288, 0)], (4, 1, 2)) ∧
    session 8 2 4096
        [.allocate none, .allocate none, .allocate (some 8192), .allocate none,
         .allocate (some 12288), .deallocate 4128, .deallocate 8224, .deallocate 4136,
         .deallocate 12320, .free_unused]
      = .error .use_after_free :=
  ⟨rfl, rfl⟩

/-- C16 (defect in the code).  On the chunk of `create(16, 2)` (base 4096, payload at
4128 and 4144) `_get_index_from_ptr_` returns 1 for the payload address of slot
0 and 2 for the payload address of slot 1, and `_get_slot_` on 2 fails its bounds
assertion: the difference is taken from the last metadata entry, not from the
start of the payload region. -/
theorem index_is_off :
    pool_16_2.free_subpools.map
        (fun c => (c.slots, c.slot_count, c.cells.map (fun e => e.slot),
          _get_index_from_ptr_ 4128 c, _get_index_from_ptr_ 4144 c, _get_slot_ 2 c))
      = [(4096, 2, [4128, 4144], .ok 1, .ok 2, .error .assertion)] :=
  rfl

/-- C17 (defect in the code).  `create(1, 2 ^ 31)`, `2 ^ 31 + 1` allocations (the last
one grows the pool), `lazypool_deallocate_all`, one allocation.  The reset
subtracts the count of the full chunk through an `int`: `2 ^ 31` becomes
`- 2 ^ 31`, and the pool's `used_count` ends at `2 ^ 32`, equal to its
`slot_count`, with both chunks empty.  The allocation therefore grows the pool
and moves the head chunk, with `used_count == 0` of `2 ^ 31` slots, to the
exhausted chain. -/
theorem exhausted_chain_gets_empty_chunk :
    (session 1 (2 ^ 31) (2 ^ 40)
        (((List.replicate (2 ^ 31) (none : Option Nat)).map Op.allocate
            ++ [Op.allocate (some (2 ^ 41))])
          ++ [Op.deallocate_all, Op.allocate (some (2 ^ 42))])).map
      (fun r => (r.2.used_count, r.2.slot_count,
        r.2.used_subpools.map (fun c => (c.slots, c.used_count, c.slot_count))))
      = .ok (2 ^ 32 + 1, 3 * 2 ^ 31, [(2 ^ 41, 0, 2 ^ 31)]) :=
  reset_then_growth 1 (2 ^ 31) (2 ^ 40) (2 ^ 41) (2 ^ 42) (List.replicate (2 ^ 31) none)
    (by decide) (by decide) (List.length_replicate _ _) (by decide) (by decide) (by decide)
    (by decide) (by decide) (by decide) (by decide)

/-- C18 (defect in the code).  `create(2 ^ 32, 2)` and three allocations: the chunk
added on growth has `slot_size` 0, not `2 ^ 32`, because `lazypool_allocate`
copies the parameters into `unsigned` locals. -/
theorem growth_truncates_slot_size :
    (session (2 ^ 32) 2 4096 [.allocate none, .allocate none, .allocate (some 8192)]).map
      (fun r => (r.1, r.2.slot_count,
        r.2.used_subpools.map (fun c => (c.slots, c.slot_size, c.slot_count)),
        r.2.free_subpools.map (fun c => (c.slots, c.slot_size, c.slot_count))))
      = .ok ([.allocated 4128 .LAZYPOOL_OK, .allocated 4294971424 .LAZYPOOL_OK,
              .allocated 8224 .LAZYPOOL_OK], 4,
             [(4096, 2 ^ 32, 2)], [(8192, 0, 2)]) :=
  rfl

/-- C19 (counterexample).  After `create(2 ^ 63, 4)` and nine allocations (two growths)
the exhausted chain holds the chunk at 8192 and behind it the chunk at 4096, and
the payload ranges of both contain the address 8256.  The chunk at 4096 is a
chunk of the exhausted chain that owns 8256, and `lazypool_deallocate` returns
`LAZYPOOL_OK`, but the chunk that moves to the head of the available chain is
the one at 8192; the chunk at 4096 stays in the exhausted chain. -/
theorem second_owner_stays :
    (session (2 ^ 63) 4 4096
        [.allocate none, .allocate none, .allocate none, .allocate none,
         .allocate (some 8192), .allocate none, .allocate none, .allocate none,
         .allocate (some 12288)]).map
      (fun r => (r.2.used_subpools.map (fun c => (c.slots, c.used_count, decide (owns 8256 c))),
        r.2.free_subpools.map (fun c => (c.slots, c.used_count))))
      = .ok ([(8192, 4, true), (4096, 4, true)], [(12288, 1)]) ∧
    (session (2 ^ 63) 4 4096
        [.allocate none, .allocate none, .allocate none, .allocate none,
         .allocate (some 8192), .allocate none, .allocate none, .allocate none,
         .allocate (some 12288), .deallocate 8256]).map
      (fun r => (r.1.getLast?, r.2.used_subpools.map (fun c => (c.slots, c.used_count)),
        r.2.free_subpools.map (fun c => (c.slots, c.used_count))))
      = .ok (some (.deallocated .LAZYPOOL_OK (some 8256)), [(4096, 4)],
             [(8192, 3), (12288, 1)]) :=
  ⟨rfl, rfl⟩

/-- C19 (amended).  Deallocation from an exhausted chunk: for every pool and every
non-null address `q`, let `C` be the first chunk of the exhausted chain, in chain
order, whose payload range contains `q`, the bounds of the range being those that
`_is_valid_ptr_` computes in `unsigned long` arithmetic.  When
`lazypool_deallocate(&q, pool)`
returns `LAZYPOOL_OK`, the available chain is `C` (same geometry, `used_count`
lower by one modulo `2 ^ 64`) followed by the previous available chain, the
exhausted chain is the previous one without `C` and otherwise in its order, the
pool's `used_count` is lower by one modulo `2 ^ 64`, its other counters are the
same, and the other chunks are the same as before. -/
theorem exhausted_chunk_migrates (pool : LazyPool) (q : Nat) (hq : q ≠ 0)
    (pre next : List LazySubpool) (C : LazySubpool)
    (hchain : pool.used_subpools = pre ++ C :: next)
    (hown : owns q C) (hfirst : ∀ x ∈ pre, ¬ owns q x)
    (ref : Option Nat) (pool1 : LazyPool)
    (hret : lazypool_deallocate (some q) pool = .ok (.LAZYPOOL_OK, ref, pool1)) :
    ∃ C1 : LazySubpool,
      pool1.free_subpools = C1 :: pool.free_subpools ∧
      pool1.used_subpools = pre ++ next ∧
      C1.slots = C.slots ∧ C1.slot_size = C.slot_size ∧ C1.slot_count = C.slot_count ∧
      C1.used_count = usub C.used_count 1 ∧
      (1 ≤ C.used_count → C.used_count < ULONG_MOD → C1.used_count + 1 = C.used_count) ∧
      pool1.used_count = usub pool.used_count 1 ∧
      (1 ≤ pool.used_count → pool.used_count < ULONG_MOD →
        pool1.used_count + 1 = pool.used_count) ∧
      pool1.slot_count = pool.slot_count ∧ pool1.subpool_count = pool.subpool_count := by
  have hvC : _is_valid_ptr_ q C = true := (is_valid_iff_owns q C).2 hown
  have hvpre : ∀ x ∈ pre, _is_valid_ptr_ q x = false := by
    intro x hx
    cases hv : _is_valid_ptr_ q x with
    | false => rfl
    | true => exact absurd ((is_valid_iff_owns q x).1 hv) (hfirst x hx)
  have hsub : ∀ x : Nat, 1 ≤ x → x < ULONG_MOD → usub x 1 + 1 = x := by
    intro x h1 h2
    rw [usub_small h2 h1]
    omega
  rcases (deallocate_spec hq hret).2 with ⟨h1, _⟩ |
    ⟨_, pre1, c, nx, c1, g1, g2, g3, g4, g5⟩ | ⟨_, g2, _⟩
  · cases h1
  · rw [hchain] at g1
    obtain ⟨e1, e2, e3⟩ := first_valid_unique q pre pre1 C c next nx g1 hvpre hvC g2 g3
    subst e1; subst e2; subst e3
    rcases dealloc_sub_spec g4 with ⟨_, k, _⟩ | ⟨_, _, i, w, hc1⟩
    · cases k
    · refine ⟨c1, by rw [g5], by rw [g5], by rw [hc1], by rw [hc1], by rw [hc1],
        by rw [hc1], ?_, by rw [g5], ?_, by rw [g5], by rw [g5]⟩
      · intro a b
        rw [hc1]
        exact hsub _ a b
      · intro a b
        rw [g5]
        exact hsub _ a b
  · have := g2 C (by rw [hchain]; simp)
    rw [hvC] at this
    cases this

/-- C19, instance: the address 4128 on the pool of `create(16, 2)` after three
allocations; its chunk at 4096 is the only chunk of the exhausted chain. -/
theorem exhausted_chunk_migrates_witness :
    ((4128 : Nat) ≠ 0 ∧
      (pool_grown 16 2 4096 8192).used_subpools = [] ++ chunk_after 16 2 4096 2 :: [] ∧
      owns 4128 (chunk_after 16 2 4096 2) ∧
      (∀ x ∈ ([] : List LazySubpool), ¬ owns 4128 x) ∧
      lazypool_deallocate (some 4128) (pool_grown 16 2 4096 8192)
        = .ok (.LAZYPOOL_OK, some 4128, sys_grown.pool)) ∧
    ∃ C1 : LazySubpool,
      sys_grown.pool.free_subpools = C1 :: (pool_grown 16 2 4096 8192).free_subpools ∧
      sys_grown.pool.used_subpools = [] ++ [] ∧
      C1.slots = (chunk_after 16 2 4096 2).slots ∧
      C1.slot_size = (chunk_after 16 2 4096 2).slot_size ∧
      C1.slot_count = (chunk_after 16 2 4096 2).slot_count ∧
      C1.used_count = usub (chunk_after 16 2 4096 2).used_count 1 ∧
      (1 ≤ (chunk_after 16 2 4096 2).used_count →
        (chunk_after 16 2 4096 2).used_count < ULONG_MOD →
        C1.used_count + 1 = (chunk_after 16 2 4096 2).used_count) ∧
      sys_grown.pool.used_count = usub (pool_grown 16 2 4096 8192).used_count 1 ∧
      (1 ≤ (pool_grown 16 2 4096 8192).used_count →
        (pool_grown 16 2 4096 8192).used_count < ULONG_MOD →
        sys_grown.pool.used_count + 1 = (pool_grown 16 2 4096 8192).used_count) ∧
      sys_grown.pool.slot_count = (pool_grown 16 2 4096 8192).slot_count ∧
      sys_grown.pool.subpool_count = (pool_grown 16 2 4096 8192).subpool_count :=
  ⟨⟨by decide, rfl, by decide, by simp, rfl⟩,
    exhausted_chunk_migrates (pool_grown 16 2 4096 8192) 4128 (by decide) [] []
      (chunk_after 16 2 4096 2) rfl (by decide) (by simp) (some 4128) sys_grown.pool rfl⟩

/-- C20 (defect in the code).  The sequence named in the property: `create(16, 2)`,
three allocations, the release of the third address, `free_unused`.  The only
chunk of the available chain is empty and is destroyed: the chain is empty
afterwards, the three accessors and the next `lazypool_allocate` read through a
null head. -/
theorem available_chain_emptied :
    (session 16 2 4096
        [.allocate none, .allocate none, .allocate (some 8192), .deallocate 8224,
         .free_unused]).map
      (fun r => (r.1, r.2.free_subpools, r.2.used_subpools.map (fun c => c.slots),
        r.2.subpool_count, r.2.used_count, r.2.slot_count))
      = .ok ([.allocated 4128 .LAZYPOOL_OK, .allocated 4144 .LAZYPOOL_OK,
              .allocated 8224 .LAZYPOOL_OK, .deallocated .LAZYPOOL_OK (some 8224),
              .freed 2], [], [4096], 1, 2, 2) ∧
    (session 16 2 4096
        [.allocate none, .allocate none, .allocate (some 8192), .deallocate 8224,
         .free_unused]).bind (fun r => lazypool_used_bytes r.2) = .error .null_deref ∧
    (session 16 2 4096
        [.allocate none, .allocate none, .allocate (some 8192), .deallocate 8224,
         .free_unused]).bind (fun r => lazypool_available_bytes r.2) = .error .null_deref ∧
    (session 16 2 4096
        [.allocate none, .allocate none, .allocate (some 8192), .deallocate 8224,
         .free_unused]).bind (fun r => lazypool_total_bytes r.2) = .error .null_deref ∧
    session 16 2 4096
        [.allocate none, .allocate none, .allocate (some 8192), .deallocate 8224,
         .free_unused, .allocate (some 12288)]
      = .error .null_deref :=
  ⟨rfl, rfl, rfl, rfl, rfl⟩

end Lazy
